import Mathlib

/-!
HSR ("high-low ladder") game state machine: embedding of `open_spiel/games/hsr.cc`

The state object of the C++ class `HSRState` is a record; every member
function becomes a function on that record.  An access `board_[i]` outside
`0 .. kNumCells-1` is undefined behaviour in C++ and is the failure value
`none` here, so every operation touching the board returns an `Option`.

The header `hsr.h` is not part of the sources: the compile-time constant
`kNumCells` is a parameter of the functions that use it, and the start values
of the counters are parameters of the initial state.  Integers are unbounded
(`Int`): the declarations fixing their width are in the absent header.
-/

namespace HSR

/-- The three marks a board cell can carry (`CellState` in the source). -/
inductive CellState where
  | kEmpty
  | kNought
  | kCross
  deriving DecidableEq, Repr

/-- Modelled from the spec: the framework's player id for "outcome undetermined"
(`kInvalidPlayer` is declared outside the sources); it differs from both
player ids 0 and 1. -/
def kInvalidPlayer : Int := -3

/-- The data members of `HSRState` that the member functions read or write. -/
structure HSRState where
  board_ : List CellState
  current_player_ : Int
  outcome_ : Int
  kNumQuestions : Int
  kNumRungs : Int
  kNumJars : Int
  hsr_guess : Int
  history_ : List Int
  deriving DecidableEq, Repr

/-- Read of `board_[i]`: fails outside the array. -/
def boardGet (b : List CellState) (i : Int) : Option CellState :=
  if 0 ≤ i then b[i.toNat]? else none

/-- Write `board_[i] = c`: fails outside the array. -/
def boardSet (b : List CellState) (i : Int) (c : CellState) : Option (List CellState) :=
  if 0 ≤ i ∧ i < (b.length : Int) then some (b.set i.toNat c) else none

/-- The loop `while (start > 0) { board_[start-1] = kCross; start--; }` of
`EFG_ANDR`, by recursion on the value of `start`. -/
def crossDown (b : List CellState) : Nat → Option (List CellState)
  | 0 => some b
  | start + 1 =>
    match boardSet b (((start + 1 : Nat) : Int) - 1) CellState.kCross with
    | none => none
    | some b1 => crossDown b1 start

/-- The loop `for (start = hsr_guess; start < kNumCells + 1; start++)
board_[start-1] = kCross;` of `EFG_ANDL`; the last argument counts the
iterations still to run. -/
def crossUp (b : List CellState) (start : Int) : Nat → Option (List CellState)
  | 0 => some b
  | n + 1 =>
    match boardSet b (start - 1) CellState.kCross with
    | none => none
    | some b1 => crossUp b1 (start + 1) n

/-- Source function `HSRState::PWin`. -/
def PWin (s : HSRState) : Bool :=
  decide (s.kNumRungs = 1)

/-- Source function `HSRState::OWin`. -/
def OWin (s : HSRState) : Bool :=
  decide (s.kNumJars = 0) || decide (s.kNumQuestions = 0) || decide (s.kNumRungs = 0)

/-- Source function `HSRState::EFG_ANDR`: the right-branch confirm. -/
def EFG_ANDR (kNumCells : Nat) (s : HSRState) : Option HSRState :=
  let s1 := { s with kNumQuestions := s.kNumQuestions - 1 }
  let s2 := { s1 with kNumRungs := (kNumCells : Int) - s1.hsr_guess }
  match boardSet s2.board_ (s2.hsr_guess - 1) CellState.kNought with
  | none => none
  | some b1 =>
    match crossDown b1 (s2.hsr_guess - 1).toNat with
    | none => none
    | some b2 => some { s2 with board_ := b2 }

/-- Source function `HSRState::EFG_ANDL`: the left-branch confirm.  The loop runs while
`start < kNumCells + 1`, that is `kNumCells + 1 - hsr_guess` times (no time
when that number is negative). -/
def EFG_ANDL (kNumCells : Nat) (s : HSRState) : Option HSRState :=
  match crossUp s.board_ s.hsr_guess ((kNumCells : Int) + 1 - s.hsr_guess).toNat with
  | none => none
  | some b1 =>
    let s1 := { s with board_ := b1 }
    let s2 := { s1 with kNumQuestions := s1.kNumQuestions - 1 }
    let s3 := { s2 with kNumRungs := s2.hsr_guess }
    some { s3 with kNumJars := s3.kNumJars - 1 }

/-- Source function `HSRState::Exists`: records the guess. -/
def HSRState.Exists (s : HSRState) (move : Int) : HSRState :=
  { s with hsr_guess := move }

/-- Source function `HSRState::IsTerminal`. -/
def IsTerminal (s : HSRState) : Bool :=
  decide (s.outcome_ ≠ kInvalidPlayer)

/-- Source function `HSRState::DoApplyAction` (the two trace lines written to `std::cout`
are not part of the state and are left out). -/
def DoApplyAction (kNumCells : Nat) (s : HSRState) (move : Int) : Option HSRState :=
  let confirmed : Option HSRState :=
    if s.current_player_ = 1 ∧ move < 1 then EFG_ANDR kNumCells s
    else if s.current_player_ = 1 ∧ move > 0 then EFG_ANDL kNumCells s
    else some s
  match confirmed with
  | none => none
  | some s1 =>
    let guessed : Option HSRState :=
      if s1.current_player_ = 0 then
        match boardGet s1.board_ (move - 1) with
        | none => none
        | some c => if c = CellState.kEmpty then some (s1.Exists move) else some s1
      else some s1
    match guessed with
    | none => none
    | some s2 =>
      let s3 : HSRState :=
        if PWin s2 then { s2 with outcome_ := 1 - s2.current_player_ }
        else if OWin s2 then { s2 with outcome_ := s2.current_player_ }
        else s2
      some { s3 with current_player_ := 1 - s3.current_player_ }

/-- The loop of `HSRState::LegalActions` over `cell = 0 .. kNumCells-1`,
by recursion on the cells still to visit; `cell` is the index of the head. -/
def emptyCellMoves : Nat → List CellState → List Int
  | _, [] => []
  | cell, c :: rest =>
    if c = CellState.kEmpty then ((cell : Int) + 1) :: emptyCellMoves (cell + 1) rest
    else emptyCellMoves (cell + 1) rest

/-- Source function `HSRState::LegalActions`. -/
def LegalActions (s : HSRState) : List Int :=
  if IsTerminal s then []
  else if s.current_player_ = 1 then [0, 1]
  else emptyCellMoves 0 s.board_

/-- Source function `HSRState::Returns`; the doubles `1.0`, `-1.0`, `0.0` are the integers
`1`, `-1`, `0`. -/
def Returns (s : HSRState) : List Int :=
  if s.outcome_ = 0 then [1, -1]
  else if s.outcome_ = 1 then [-1, 1]
  else [0, 0]

/-- Source function `HSRState::UndoAction`: writes `board_[move]`, then pops the history
(`pop_back` of an empty vector is undefined, hence a failure). -/
def UndoAction (s : HSRState) (player : Int) (move : Int) : Option HSRState :=
  match boardSet s.board_ move CellState.kEmpty with
  | none => none
  | some b1 =>
    if s.history_ = [] then none
    else some { s with board_ := b1, current_player_ := player,
                       outcome_ := kInvalidPlayer, history_ := s.history_.dropLast }

/-- Modelled from the spec: the state right after construction.  The
constructor in the sources fills the board with `kEmpty`; the start values of
the other members are declared in the absent header, so the counters and the
guess slot are parameters, and by the spec the Guesser (player 0) moves first,
the outcome is undetermined and the history is empty. -/
def initialState (kNumCells : Nat) (q0 r0 j0 g0 : Int) : HSRState :=
  { board_ := List.replicate kNumCells CellState.kEmpty
    current_player_ := 0
    outcome_ := kInvalidPlayer
    kNumQuestions := q0
    kNumRungs := r0
    kNumJars := j0
    hsr_guess := g0
    history_ := [] }

/-- Modelled from the spec: the host's `ApplyAction`, which runs
`DoApplyAction` and appends the action to the history (the wrapper is
framework code outside the sources). -/
def ApplyAction (kNumCells : Nat) (s : HSRState) (move : Int) : Option HSRState :=
  match DoApplyAction kNumCells s move with
  | none => none
  | some s1 => some { s1 with history_ := s1.history_ ++ [move] }

/-- A play: the actions are applied in order, each one has to be among the
legal actions of the state it is applied to. -/
def play (kNumCells : Nat) (s : HSRState) : List Int → Option HSRState
  | [] => some s
  | a :: rest =>
    if a ∈ LegalActions s then
      match ApplyAction kNumCells s a with
      | none => none
      | some s1 => play kNumCells s1 rest
    else none

/-- The Guesser's legal actions as the spec words them: the 1-based indices
of the cells that are still Empty, in increasing order of the index. -/
def emptyIndicesSpec (b : List CellState) : List Int :=
  ((List.range b.length).filter (fun i => decide (b[i]? = some CellState.kEmpty))).map
    (fun (i : Nat) => (i : Int) + 1)

/-- The tail of `DoApplyAction`, run once the board, the counters and the
guess slot are updated: the two win predicates are evaluated against the
mover `current_player_`, then the player to move is flipped. -/
def settle (s2 : HSRState) : HSRState :=
  let s3 : HSRState :=
    if PWin s2 then { s2 with outcome_ := 1 - s2.current_player_ }
    else if OWin s2 then { s2 with outcome_ := s2.current_player_ }
    else s2
  { s3 with current_player_ := 1 - s3.current_player_ }

/-- The cell with 1-based index `i` (the numbering the actions use), that is
`board_[i-1]`; `none` when there is no such cell. -/
def cellAt (b : List CellState) (i : Int) : Option CellState :=
  boardGet b (i - 1)

/-- A four-cell state with the Adjudicator to move and the guess 3 pending. -/
def sampleConfirmState : HSRState :=
  { board_ := [CellState.kEmpty, CellState.kEmpty, CellState.kEmpty, CellState.kEmpty]
    current_player_ := 1
    outcome_ := kInvalidPlayer
    kNumQuestions := 5
    kNumRungs := 4
    kNumJars := 5
    hsr_guess := 3
    history_ := [3] }

/-- What holds of a state reached from the initial state by `k` legal
actions on a board of `N` cells with start budget `q0`: the board keeps its
size, the players alternate from player 0, every second action (those of
player 1) has taken one question, a pending guess names an Empty cell, and a
counter configuration that satisfies a win predicate has been settled by the
action that was applied last. -/
def ReachInv (N : Nat) (q0 : Int) (k : Nat) (s : HSRState) : Prop :=
  s.board_.length = N ∧
  s.current_player_ = ((k % 2 : Nat) : Int) ∧
  s.kNumQuestions = q0 - ((k / 2 : Nat) : Int) ∧
  (k % 2 = 1 → cellAt s.board_ s.hsr_guess = some CellState.kEmpty) ∧
  (1 ≤ k → (s.kNumRungs = 1 ∨ s.kNumJars = 0 ∨ s.kNumQuestions = 0 ∨ s.kNumRungs = 0) →
    IsTerminal s = true)

/-- Order of the marks along a game: Empty (or no cell) first, nought next,
cross last. -/
def cellRank : Option CellState → Nat
  | some CellState.kCross => 2
  | some CellState.kNought => 1
  | _ => 0

/-- Source function `PlayerToState`: the label of a player id; any other id
ends in `SpielFatalError`, the failure value here. -/
def PlayerToState (player : Int) : Option String :=
  if player = 0 then some "Proponent"
  else if player = 1 then some "Opponent"
  else none

/-- Source function `HSRState::ActionToString`.  The column count `kNumCols`
is a constant of the absent header and a parameter here; a remainder by 0 is
undefined in C++ and fails.  The operator `%` of C++ truncates towards zero,
and `absl::StrCat` prints an integer in decimal. -/
def ActionToString (kNumCols : Int) (s : HSRState) (player : Int) (action_id : Int) :
    Option String :=
  if s.current_player_ = 0 then
    if kNumCols = 0 then none
    else
      match PlayerToState player with
      | none => none
      | some p => some (p ++ "(" ++ toString (Int.tmod action_id kNumCols) ++ ")")
  else
    match PlayerToState player with
    | none => none
    | some p => some (p ++ "(" ++ (if action_id = 0 then "L" else "R") ++ ")")

/-- Modelled from the spec: the number of rows of the observation tensor, the
three cell states (`kCellStates` is a constant of the absent header). -/
def kCellStates : Nat := 3

/-- The integer codes of the usual declaration order Empty, nought, cross of
the enumeration; the enumeration itself is declared in the absent header, so
`ObservationTensor` takes the code function as a parameter and this one is the
instance used in examples. -/
def cellCode : CellState → Nat
  | CellState.kEmpty => 0
  | CellState.kNought => 1
  | CellState.kCross => 2

/-- Modelled from the spec: a write through the two-dimensional tensor view of
the framework (`TensorView<2>` is outside the sources).  Element `(row, col)`
of a row-major view with `cols` columns is the flat element
`row * cols + col`; a write outside the buffer is undefined and fails. -/
def tensorSet (cols : Nat) (buf : List Int) (row col : Nat) (v : Int) : Option (List Int) :=
  if row * cols + col < buf.length then some (buf.set (row * cols + col) v) else none

/-- The loop of `HSRState::ObservationTensor` over `cell = 0 .. kNumCells-1`,
by recursion on the cells still to visit; `cell` is the index of the head. -/
def fillTensor (kNumCells : Nat) (code : CellState → Nat) :
    Nat → List CellState → List Int → Option (List Int)
  | _, [], buf => some buf
  | cell, c :: rest, buf =>
    match tensorSet kNumCells buf (code c) cell 1 with
    | none => none
    | some buf1 => fillTensor kNumCells code (cell + 1) rest buf1

/-- Source function `HSRState::ObservationTensor`.  The two `SPIEL_CHECK`s
demand `0 ≤ player < num_players_`, with two players by the game type of the
sources; the view is created with the reset flag, which sizes the buffer to
`kCellStates * kNumCells` and zeroes it.  The doubles `0.0` and `1.0` are the
integers `0` and `1`. -/
def ObservationTensor (kNumCells : Nat) (code : CellState → Nat) (s : HSRState)
    (player : Int) : Option (List Int) :=
  if 0 ≤ player ∧ player < 2 then
    fillTensor kNumCells code 0 s.board_ (List.replicate (kCellStates * kNumCells) 0)
  else none

/-- Every confirm played so far is the action `b`: the confirms are the
actions at the odd positions of a play, counted from 0. -/
def confirmsAre (b : Int) (as : List Int) : Prop :=
  ∀ j : Nat, j < as.length → j % 2 = 1 → as[j]? = some b

/-- A five-cell state in the middle of a game: cells 1 and 2 crossed out,
cell 3 a confirmed rung, cells 4 and 5 Empty. -/
def sampleBoardState : HSRState :=
  { board_ := [CellState.kCross, CellState.kCross, CellState.kNought,
               CellState.kEmpty, CellState.kEmpty]
    current_player_ := 0
    outcome_ := kInvalidPlayer
    kNumQuestions := 3
    kNumRungs := 2
    kNumJars := 5
    hsr_guess := 3
    history_ := [1, 0, 3, 0] }

/-! # Theorems -/

/-! ## Board primitives -/

theorem boardSet_eq_some (b : List CellState) (i : Int) (c : CellState)
    (h0 : 0 ≤ i) (h1 : i < (b.length : Int)) :
    boardSet b i c = some (b.set i.toNat c) := by
  unfold boardSet
  rw [if_pos ⟨h0, h1⟩]

theorem boardSet_nat (b : List CellState) (k : Nat) (c : CellState) (h : k < b.length) :
    boardSet b (k : Int) c = some (b.set k c) := by
  rw [boardSet_eq_some b k c (by omega) (by omega)]
  simp

theorem boardGet_nat (b : List CellState) (k : Nat) :
    boardGet b (k : Int) = b[k]? := by
  unfold boardGet
  simp

theorem crossDown_spec (n : Nat) : ∀ b : List CellState, n ≤ b.length →
    ∃ b2, crossDown b n = some b2 ∧ b2.length = b.length ∧
      (∀ i, i < n → b2[i]? = some CellState.kCross) ∧
      (∀ i, n ≤ i → b2[i]? = b[i]?) := by
  induction n with
  | zero =>
    intro b _
    exact ⟨b, rfl, rfl, fun i hi => absurd hi (Nat.not_lt_zero i), fun _ _ => rfl⟩
  | succ n ih =>
    intro b hb
    have hset : boardSet b (((n + 1 : Nat) : Int) - 1) CellState.kCross
        = some (b.set n CellState.kCross) := by
      have e : (((n + 1 : Nat) : Int) - 1) = (n : Int) := by omega
      rw [e]
      exact boardSet_nat b n _ (by omega)
    obtain ⟨b2, h1, h2, h3, h4⟩ := ih (b.set n CellState.kCross) (by simp; omega)
    refine ⟨b2, ?_, ?_, ?_, ?_⟩
    · simp only [crossDown, hset]
      exact h1
    · simpa using h2
    · intro i hi
      by_cases hin : i < n
      · exact h3 i hin
      · have : i = n := by omega
        subst this
        rw [h4 i (le_refl i)]
        exact List.getElem?_set_self (by omega)
    · intro i hi
      rw [h4 i (by omega)]
      rw [List.getElem?_set_ne (by omega)]

theorem crossUp_spec (n : Nat) : ∀ (b : List CellState) (k : Nat), k + n ≤ b.length →
    ∃ b2, crossUp b ((k : Int) + 1) n = some b2 ∧ b2.length = b.length ∧
      (∀ i, k ≤ i → i < k + n → b2[i]? = some CellState.kCross) ∧
      (∀ i, (i < k ∨ k + n ≤ i) → b2[i]? = b[i]?) := by
  induction n with
  | zero =>
    intro b k _
    exact ⟨b, rfl, rfl, fun i h1 h2 => by omega, fun _ _ => rfl⟩
  | succ n ih =>
    intro b k hb
    have hset : boardSet b ((k : Int) + 1 - 1) CellState.kCross
        = some (b.set k CellState.kCross) := by
      have e : ((k : Int) + 1 - 1) = (k : Int) := by omega
      rw [e]
      exact boardSet_nat b k _ (by omega)
    obtain ⟨b2, h1, h2, h3, h4⟩ := ih (b.set k CellState.kCross) (k + 1) (by simp; omega)
    refine ⟨b2, ?_, ?_, ?_, ?_⟩
    · simp only [crossUp, hset]
      have e : ((k : Int) + 1 + 1) = (((k + 1 : Nat) : Int) + 1) := by omega
      rw [e]
      exact h1
    · simpa using h2
    · intro i hi1 hi2
      by_cases hik : i = k
      · subst hik
        rw [h4 i (Or.inl (by omega))]
        exact List.getElem?_set_self (by omega)
      · exact h3 i (by omega) (by omega)
    · intro i hi
      rw [h4 i (by omega)]
      rw [List.getElem?_set_ne (by omega)]

/-! ## The two confirm branches -/

theorem cellAt_succ (b : List CellState) (k : Nat) : cellAt b ((k : Int) + 1) = b[k]? := by
  unfold cellAt
  have e : ((k : Int) + 1 - 1) = (k : Int) := by omega
  rw [e, boardGet_nat]

theorem cellAt_eq_none_of_lt (b : List CellState) (i : Int) (h : i < 1) : cellAt b i = none := by
  unfold cellAt boardGet
  rw [if_neg (by omega)]

theorem EFG_ANDR_spec (N : Nat) (s : HSRState) (hlen : s.board_.length = N)
    (h1 : 1 ≤ s.hsr_guess) (h2 : s.hsr_guess ≤ (N : Int)) :
    ∃ b2, EFG_ANDR N s = some { s with kNumQuestions := s.kNumQuestions - 1,
                                       kNumRungs := (N : Int) - s.hsr_guess,
                                       board_ := b2 } ∧
      b2.length = N ∧
      cellAt b2 s.hsr_guess = some CellState.kNought ∧
      (∀ i : Int, 1 ≤ i → i < s.hsr_guess → cellAt b2 i = some CellState.kCross) ∧
      (∀ i : Int, s.hsr_guess < i → cellAt b2 i = cellAt s.board_ i) := by
  obtain ⟨k, hk⟩ : ∃ k : Nat, s.hsr_guess = (k : Int) + 1 := ⟨(s.hsr_guess - 1).toNat, by omega⟩
  have hkN : k < s.board_.length := by omega
  have hset : boardSet s.board_ (s.hsr_guess - 1) CellState.kNought
      = some (s.board_.set k CellState.kNought) := by
    have e : s.hsr_guess - 1 = (k : Int) := by omega
    rw [e]
    exact boardSet_nat _ k _ hkN
  have htn : (s.hsr_guess - 1).toNat = k := by omega
  obtain ⟨b2, c1, c2, c3, c4⟩ :=
    crossDown_spec k (s.board_.set k CellState.kNought) (by simp; omega)
  refine ⟨b2, ?_, ?_, ?_, ?_, ?_⟩
  · simp only [EFG_ANDR, hset, htn, c1]
  · rw [c2]
    simpa using hlen
  · rw [hk, cellAt_succ, c4 k (le_refl k)]
    exact List.getElem?_set_self hkN
  · intro i hi1 hi2
    obtain ⟨j, hj⟩ : ∃ j : Nat, i = (j : Int) + 1 := ⟨(i - 1).toNat, by omega⟩
    rw [hj, cellAt_succ]
    exact c3 j (by omega)
  · intro i hi
    obtain ⟨j, hj⟩ : ∃ j : Nat, i = (j : Int) + 1 := ⟨(i - 1).toNat, by omega⟩
    rw [hj, cellAt_succ, cellAt_succ, c4 j (by omega)]
    exact List.getElem?_set_ne (by omega)

theorem EFG_ANDL_spec (N : Nat) (s : HSRState) (hlen : s.board_.length = N)
    (h1 : 1 ≤ s.hsr_guess) (h2 : s.hsr_guess ≤ (N : Int)) :
    ∃ b2, EFG_ANDL N s = some { s with board_ := b2,
                                       kNumQuestions := s.kNumQuestions - 1,
                                       kNumRungs := s.hsr_guess,
                                       kNumJars := s.kNumJars - 1 } ∧
      b2.length = N ∧
      (∀ i : Int, s.hsr_guess ≤ i → i ≤ (N : Int) → cellAt b2 i = some CellState.kCross) ∧
      (∀ i : Int, i < s.hsr_guess → cellAt b2 i = cellAt s.board_ i) := by
  obtain ⟨k, hk⟩ : ∃ k : Nat, s.hsr_guess = (k : Int) + 1 := ⟨(s.hsr_guess - 1).toNat, by omega⟩
  have htn : ((N : Int) + 1 - s.hsr_guess).toNat = N - k := by omega
  obtain ⟨b2, c1, c2, c3, c4⟩ := crossUp_spec (N - k) s.board_ k (by omega)
  refine ⟨b2, ?_, ?_, ?_, ?_⟩
  · rw [← hk] at c1
    simp only [EFG_ANDL, htn, c1]
  · rw [c2]
    exact hlen
  · intro i hi1 hi2
    obtain ⟨j, hj⟩ : ∃ j : Nat, i = (j : Int) + 1 := ⟨(i - 1).toNat, by omega⟩
    rw [hj, cellAt_succ]
    exact c3 j (by omega) (by omega)
  · intro i hi
    by_cases hpos : 1 ≤ i
    · obtain ⟨j, hj⟩ : ∃ j : Nat, i = (j : Int) + 1 := ⟨(i - 1).toNat, by omega⟩
      rw [hj, cellAt_succ, cellAt_succ]
      exact c4 j (Or.inl (by omega))
    · rw [cellAt_eq_none_of_lt _ i (by omega), cellAt_eq_none_of_lt _ i (by omega)]

/-! ## Case analysis of `DoApplyAction` -/

theorem EFG_ANDR_player (N : Nat) (s s1 : HSRState) (h : EFG_ANDR N s = some s1) :
    s1.current_player_ = s.current_player_ := by
  unfold EFG_ANDR at h
  simp only at h
  split at h
  · exact absurd h (by simp)
  · split at h
    · exact absurd h (by simp)
    · simp only [Option.some.injEq] at h
      rw [← h]

theorem EFG_ANDL_player (N : Nat) (s s1 : HSRState) (h : EFG_ANDL N s = some s1) :
    s1.current_player_ = s.current_player_ := by
  unfold EFG_ANDL at h
  split at h
  · exact absurd h (by simp)
  · simp only [Option.some.injEq] at h
    rw [← h]

theorem DoApplyAction_right (N : Nat) (s : HSRState) (move : Int)
    (hp : s.current_player_ = 1) (hm : move < 1) :
    DoApplyAction N s move = (EFG_ANDR N s).map settle := by
  unfold DoApplyAction
  simp only [hp, hm, and_self, if_true]
  cases h : EFG_ANDR N s with
  | none => rfl
  | some s1 =>
    have hc : s1.current_player_ = 1 := by rw [EFG_ANDR_player N s s1 h, hp]
    simp [hc, settle]

theorem DoApplyAction_left (N : Nat) (s : HSRState) (move : Int)
    (hp : s.current_player_ = 1) (hm : 0 < move) :
    DoApplyAction N s move = (EFG_ANDL N s).map settle := by
  unfold DoApplyAction
  have hm1 : ¬ move < 1 := by omega
  simp only [hp, hm1, and_false, if_false, gt_iff_lt, hm, and_self, if_true]
  cases h : EFG_ANDL N s with
  | none => rfl
  | some s1 =>
    have hc : s1.current_player_ = 1 := by rw [EFG_ANDL_player N s s1 h, hp]
    simp [hc, settle]

theorem DoApplyAction_guess (N : Nat) (s : HSRState) (move : Int)
    (hp : s.current_player_ = 0) :
    DoApplyAction N s move =
      match boardGet s.board_ (move - 1) with
      | none => none
      | some c => some (settle (if c = CellState.kEmpty then s.Exists move else s)) := by
  unfold DoApplyAction
  have e1 : ¬ (s.current_player_ = 1 ∧ move < 1) := fun h => by omega
  have e2 : ¬ (s.current_player_ = 1 ∧ move > 0) := fun h => by omega
  simp only [if_neg e1, if_neg e2, if_pos hp]
  cases h : boardGet s.board_ (move - 1) with
  | none => rfl
  | some c =>
    by_cases hc : c = CellState.kEmpty <;> simp [hc, settle]

/-! ## What `settle` changes -/

theorem settle_board (s : HSRState) : (settle s).board_ = s.board_ := by
  unfold settle
  split_ifs <;> rfl

theorem settle_questions (s : HSRState) : (settle s).kNumQuestions = s.kNumQuestions := by
  unfold settle
  split_ifs <;> rfl

theorem settle_rungs (s : HSRState) : (settle s).kNumRungs = s.kNumRungs := by
  unfold settle
  split_ifs <;> rfl

theorem settle_jars (s : HSRState) : (settle s).kNumJars = s.kNumJars := by
  unfold settle
  split_ifs <;> rfl

theorem settle_guess (s : HSRState) : (settle s).hsr_guess = s.hsr_guess := by
  unfold settle
  split_ifs <;> rfl

theorem settle_history (s : HSRState) : (settle s).history_ = s.history_ := by
  unfold settle
  split_ifs <;> rfl

theorem settle_player (s : HSRState) : (settle s).current_player_ = 1 - s.current_player_ := by
  unfold settle
  split_ifs <;> rfl

theorem settle_outcome_pwin (s : HSRState) (h : s.kNumRungs = 1) :
    (settle s).outcome_ = 1 - s.current_player_ := by
  simp [settle, PWin, h]

theorem settle_outcome_owin (s : HSRState) (h : s.kNumRungs ≠ 1)
    (ho : s.kNumJars = 0 ∨ s.kNumQuestions = 0 ∨ s.kNumRungs = 0) :
    (settle s).outcome_ = s.current_player_ := by
  have hO : OWin s = true := by
    unfold OWin
    rcases ho with h1 | h1 | h1 <;> simp [h1]
  simp [settle, PWin, h, hO]

theorem settle_outcome_neither (s : HSRState) (h : s.kNumRungs ≠ 1)
    (hj : s.kNumJars ≠ 0) (hq : s.kNumQuestions ≠ 0) (hr : s.kNumRungs ≠ 0) :
    (settle s).outcome_ = s.outcome_ := by
  simp [settle, PWin, OWin, h, hj, hq, hr]

/-! ## C1, C2 -/

/-- C1 (right-branch confirm): in a non-terminal state with the Adjudicator
(player 1) to move and a pending guess `g` with `1 ≤ g ≤ boardSize`, an
action `move < 1` succeeds and yields `remainingQuestions` one less,
`remainingRungs = boardSize - g`, `remainingJars` unchanged, cell `g` marked
nought, every cell with 1-based index below `g` marked cross and every cell
with index above `g` unchanged. -/
theorem right_branch_confirm (N : Nat) (s : HSRState) (move : Int)
    (hlen : s.board_.length = N) (_hnt : IsTerminal s = false)
    (hp : s.current_player_ = 1)
    (h1 : 1 ≤ s.hsr_guess) (h2 : s.hsr_guess ≤ (N : Int)) (hm : move < 1) :
    ∃ s1, DoApplyAction N s move = some s1 ∧
      s1.kNumQuestions = s.kNumQuestions - 1 ∧
      s1.kNumRungs = (N : Int) - s.hsr_guess ∧
      s1.kNumJars = s.kNumJars ∧
      s1.board_.length = N ∧
      cellAt s1.board_ s.hsr_guess = some CellState.kNought ∧
      (∀ i : Int, 1 ≤ i → i < s.hsr_guess → cellAt s1.board_ i = some CellState.kCross) ∧
      (∀ i : Int, s.hsr_guess < i → cellAt s1.board_ i = cellAt s.board_ i) := by
  obtain ⟨b2, e, c1, c2, c3, c4⟩ := EFG_ANDR_spec N s hlen h1 h2
  have hd := DoApplyAction_right N s move hp hm
  rw [e, Option.map_some'] at hd
  refine ⟨_, hd, ?_, ?_, ?_, ?_, ?_, ?_, ?_⟩
  · rw [settle_questions]
  · rw [settle_rungs]
  · rw [settle_jars]
  · rw [settle_board]
    exact c1
  · rw [settle_board]
    exact c2
  · rw [settle_board]
    exact c3
  · rw [settle_board]
    exact c4

/-- Instance of C1 on a four-cell board with the guess 3 pending. -/
theorem right_branch_confirm_witness :
    ∃ s1, DoApplyAction 4 sampleConfirmState 0 = some s1 ∧
      s1.kNumQuestions = sampleConfirmState.kNumQuestions - 1 ∧
      s1.kNumRungs = ((4 : Nat) : Int) - sampleConfirmState.hsr_guess ∧
      s1.kNumJars = sampleConfirmState.kNumJars ∧
      s1.board_.length = 4 ∧
      cellAt s1.board_ sampleConfirmState.hsr_guess = some CellState.kNought ∧
      (∀ i : Int, 1 ≤ i → i < sampleConfirmState.hsr_guess →
        cellAt s1.board_ i = some CellState.kCross) ∧
      (∀ i : Int, sampleConfirmState.hsr_guess < i →
        cellAt s1.board_ i = cellAt sampleConfirmState.board_ i) :=
  right_branch_confirm 4 sampleConfirmState 0 (by decide) (by decide) (by decide)
    (by decide) (by decide) (by decide)

/-- C2 (left-branch confirm): in a non-terminal state with the Adjudicator
(player 1) to move and a pending guess `g` with `1 ≤ g ≤ boardSize`, an
action `move > 0` succeeds and yields every cell with 1-based index from `g`
through `boardSize` marked cross, every cell with index below `g` unchanged,
`remainingQuestions` one less, `remainingRungs = g` and `remainingJars` one
less. -/
theorem left_branch_confirm (N : Nat) (s : HSRState) (move : Int)
    (hlen : s.board_.length = N) (_hnt : IsTerminal s = false)
    (hp : s.current_player_ = 1)
    (h1 : 1 ≤ s.hsr_guess) (h2 : s.hsr_guess ≤ (N : Int)) (hm : move > 0) :
    ∃ s1, DoApplyAction N s move = some s1 ∧
      s1.board_.length = N ∧
      (∀ i : Int, s.hsr_guess ≤ i → i ≤ (N : Int) →
        cellAt s1.board_ i = some CellState.kCross) ∧
      (∀ i : Int, i < s.hsr_guess → cellAt s1.board_ i = cellAt s.board_ i) ∧
      s1.kNumQuestions = s.kNumQuestions - 1 ∧
      s1.kNumRungs = s.hsr_guess ∧
      s1.kNumJars = s.kNumJars - 1 := by
  obtain ⟨b2, e, c1, c2, c3⟩ := EFG_ANDL_spec N s hlen h1 h2
  have hd := DoApplyAction_left N s move hp hm
  rw [e, Option.map_some'] at hd
  refine ⟨_, hd, ?_, ?_, ?_, ?_, ?_, ?_⟩
  · rw [settle_board]
    exact c1
  · rw [settle_board]
    exact c2
  · rw [settle_board]
    exact c3
  · rw [settle_questions]
  · rw [settle_rungs]
  · rw [settle_jars]

/-- Instance of C2 on a four-cell board with the guess 3 pending. -/
theorem left_branch_confirm_witness :
    ∃ s1, DoApplyAction 4 sampleConfirmState 1 = some s1 ∧
      s1.board_.length = 4 ∧
      (∀ i : Int, sampleConfirmState.hsr_guess ≤ i → i ≤ ((4 : Nat) : Int) →
        cellAt s1.board_ i = some CellState.kCross) ∧
      (∀ i : Int, i < sampleConfirmState.hsr_guess →
        cellAt s1.board_ i = cellAt sampleConfirmState.board_ i) ∧
      s1.kNumQuestions = sampleConfirmState.kNumQuestions - 1 ∧
      s1.kNumRungs = sampleConfirmState.hsr_guess ∧
      s1.kNumJars = sampleConfirmState.kNumJars - 1 :=
  left_branch_confirm 4 sampleConfirmState 1 (by decide) (by decide) (by decide)
    (by decide) (by decide) (by decide)

/-! ## Frame of the confirm branches and success of `DoApplyAction` -/

theorem EFG_ANDR_frame (N : Nat) (s s1 : HSRState) (h : EFG_ANDR N s = some s1) :
    s1.current_player_ = s.current_player_ ∧ s1.outcome_ = s.outcome_ ∧
      s1.hsr_guess = s.hsr_guess ∧ s1.history_ = s.history_ ∧
      s1.kNumQuestions = s.kNumQuestions - 1 ∧
      s1.kNumRungs = (N : Int) - s.hsr_guess ∧ s1.kNumJars = s.kNumJars := by
  unfold EFG_ANDR at h
  simp only at h
  split at h
  · exact absurd h (by simp)
  · split at h
    · exact absurd h (by simp)
    · simp only [Option.some.injEq] at h
      rw [← h]
      exact ⟨rfl, rfl, rfl, rfl, rfl, rfl, rfl⟩

theorem EFG_ANDL_frame (N : Nat) (s s1 : HSRState) (h : EFG_ANDL N s = some s1) :
    s1.current_player_ = s.current_player_ ∧ s1.outcome_ = s.outcome_ ∧
      s1.hsr_guess = s.hsr_guess ∧ s1.history_ = s.history_ ∧
      s1.kNumQuestions = s.kNumQuestions - 1 ∧
      s1.kNumRungs = s.hsr_guess ∧ s1.kNumJars = s.kNumJars - 1 := by
  unfold EFG_ANDL at h
  split at h
  · exact absurd h (by simp)
  · simp only [Option.some.injEq] at h
    rw [← h]
    exact ⟨rfl, rfl, rfl, rfl, rfl, rfl, rfl⟩

theorem DoApplyAction_other (N : Nat) (s : HSRState) (move : Int)
    (h0 : s.current_player_ ≠ 0) (h1 : s.current_player_ ≠ 1) :
    DoApplyAction N s move = some (settle s) := by
  unfold DoApplyAction
  have e1 : ¬ (s.current_player_ = 1 ∧ move < 1) := fun h => h1 h.1
  have e2 : ¬ (s.current_player_ = 1 ∧ move > 0) := fun h => h1 h.1
  simp only [if_neg e1, if_neg e2, if_neg h0]
  rfl

/-- Every result of `DoApplyAction` is `settle` of a state that still has the
mover as current player and the old outcome and history. -/
theorem DoApplyAction_shape (N : Nat) (s : HSRState) (move : Int) (s1 : HSRState)
    (h : DoApplyAction N s move = some s1) :
    ∃ s2, s1 = settle s2 ∧ s2.current_player_ = s.current_player_ ∧
      s2.outcome_ = s.outcome_ ∧ s2.history_ = s.history_ := by
  by_cases hp1 : s.current_player_ = 1
  · by_cases hm : move < 1
    · rw [DoApplyAction_right N s move hp1 hm] at h
      cases hr : EFG_ANDR N s with
      | none => rw [hr] at h; exact absurd h (by simp)
      | some s2 =>
        rw [hr, Option.map_some', Option.some.injEq] at h
        obtain ⟨f1, f2, _, f4, _⟩ := EFG_ANDR_frame N s s2 hr
        exact ⟨s2, h.symm, f1, f2, f4⟩
    · rw [DoApplyAction_left N s move hp1 (by omega)] at h
      cases hr : EFG_ANDL N s with
      | none => rw [hr] at h; exact absurd h (by simp)
      | some s2 =>
        rw [hr, Option.map_some', Option.some.injEq] at h
        obtain ⟨f1, f2, _, f4, _⟩ := EFG_ANDL_frame N s s2 hr
        exact ⟨s2, h.symm, f1, f2, f4⟩
  · by_cases hp0 : s.current_player_ = 0
    · rw [DoApplyAction_guess N s move hp0] at h
      cases hg : boardGet s.board_ (move - 1) with
      | none => rw [hg] at h; exact absurd h (by simp)
      | some c =>
        rw [hg] at h
        simp only [Option.some.injEq] at h
        refine ⟨_, h.symm, ?_, ?_, ?_⟩ <;> split_ifs <;> rfl
    · rw [DoApplyAction_other N s move hp0 hp1, Option.some.injEq] at h
      exact ⟨s, h.symm, rfl, rfl, rfl⟩

theorem boardGet_isSome (b : List CellState) (i : Int) (h0 : 0 ≤ i) (h1 : i < (b.length : Int)) :
    ∃ c, boardGet b i = some c := by
  unfold boardGet
  rw [if_pos h0]
  have hlt : i.toNat < b.length := by omega
  exact ⟨b[i.toNat], List.getElem?_eq_getElem hlt⟩

/-- Success of `DoApplyAction`: it returns a state whenever the indices it
uses are on the board. -/
theorem DoApplyAction_succeeds (N : Nat) (s : HSRState) (move : Int)
    (hlen : s.board_.length = N)
    (hg : s.current_player_ = 1 → 1 ≤ s.hsr_guess ∧ s.hsr_guess ≤ (N : Int))
    (hmv : s.current_player_ = 0 → 1 ≤ move ∧ move ≤ (N : Int)) :
    ∃ s1, DoApplyAction N s move = some s1 := by
  by_cases hp1 : s.current_player_ = 1
  · obtain ⟨g1, g2⟩ := hg hp1
    by_cases hm : move < 1
    · obtain ⟨b2, e, _⟩ := EFG_ANDR_spec N s hlen g1 g2
      rw [DoApplyAction_right N s move hp1 hm, e]
      exact ⟨_, rfl⟩
    · obtain ⟨b2, e, _⟩ := EFG_ANDL_spec N s hlen g1 g2
      rw [DoApplyAction_left N s move hp1 (by omega), e]
      exact ⟨_, rfl⟩
  · by_cases hp0 : s.current_player_ = 0
    · obtain ⟨m1, m2⟩ := hmv hp0
      obtain ⟨c, hc⟩ := boardGet_isSome s.board_ (move - 1) (by omega) (by omega)
      rw [DoApplyAction_guess N s move hp0, hc]
      exact ⟨_, rfl⟩
    · exact ⟨_, DoApplyAction_other N s move hp0 hp1⟩

/-! ## C3 -/

/-- C3, the claim as stated fails: in the sample state the Adjudicator
(player 1) confirms right on the guess 3 of a four-cell board, which leaves
`remainingRungs = 1`, and the outcome is set to player 0, not to player 1. -/
theorem win_evaluation_counterexample :
    ∃ s1, DoApplyAction 4 sampleConfirmState 0 = some s1 ∧
      s1.kNumRungs = 1 ∧ s1.outcome_ = 0 ∧ s1.outcome_ ≠ 1 := by
  decide

/-- C3 (amended): after every applied action the win predicates are evaluated
on the updated counters, relative to the player who moved.  If
`remainingRungs = 1` the outcome is set to the opponent of the mover
(`1 - mover`); otherwise, if `remainingJars = 0` or `remainingQuestions = 0`
or `remainingRungs = 0`, the outcome is set to the mover; otherwise the
outcome is left as it was (undetermined in a non-terminal state). -/
theorem win_evaluation (N : Nat) (s : HSRState) (move : Int)
    (hlen : s.board_.length = N)
    (hg : s.current_player_ = 1 → 1 ≤ s.hsr_guess ∧ s.hsr_guess ≤ (N : Int))
    (hmv : s.current_player_ = 0 → 1 ≤ move ∧ move ≤ (N : Int)) :
    ∃ s1, DoApplyAction N s move = some s1 ∧
      (s1.kNumRungs = 1 → s1.outcome_ = 1 - s.current_player_) ∧
      (s1.kNumRungs ≠ 1 →
        (s1.kNumJars = 0 ∨ s1.kNumQuestions = 0 ∨ s1.kNumRungs = 0) →
        s1.outcome_ = s.current_player_) ∧
      (s1.kNumRungs ≠ 1 → s1.kNumJars ≠ 0 → s1.kNumQuestions ≠ 0 → s1.kNumRungs ≠ 0 →
        s1.outcome_ = s.outcome_ ∧ IsTerminal s1 = IsTerminal s) := by
  obtain ⟨s1, h⟩ := DoApplyAction_succeeds N s move hlen hg hmv
  obtain ⟨s2, e, f1, f2, _⟩ := DoApplyAction_shape N s move s1 h
  refine ⟨s1, h, ?_, ?_, ?_⟩
  · intro hr
    rw [e, settle_rungs] at hr
    rw [e, settle_outcome_pwin s2 hr, f1]
  · intro hr ho
    rw [e, settle_rungs] at hr
    rw [e, settle_rungs, settle_jars, settle_questions] at ho
    rw [e, settle_outcome_owin s2 hr ho, f1]
  · intro hr hj hq hr0
    rw [e, settle_rungs] at hr hr0
    rw [e, settle_jars] at hj
    rw [e, settle_questions] at hq
    have ho : s1.outcome_ = s.outcome_ := by
      rw [e, settle_outcome_neither s2 hr hj hq hr0, f2]
    refine ⟨ho, ?_⟩
    unfold IsTerminal
    rw [ho]

/-- Instance of the amended C3: the right confirm in the sample state. -/
theorem win_evaluation_witness :
    ∃ s1, DoApplyAction 4 sampleConfirmState 0 = some s1 ∧
      (s1.kNumRungs = 1 → s1.outcome_ = 1 - sampleConfirmState.current_player_) ∧
      (s1.kNumRungs ≠ 1 →
        (s1.kNumJars = 0 ∨ s1.kNumQuestions = 0 ∨ s1.kNumRungs = 0) →
        s1.outcome_ = sampleConfirmState.current_player_) ∧
      (s1.kNumRungs ≠ 1 → s1.kNumJars ≠ 0 → s1.kNumQuestions ≠ 0 → s1.kNumRungs ≠ 0 →
        s1.outcome_ = sampleConfirmState.outcome_ ∧
          IsTerminal s1 = IsTerminal sampleConfirmState) :=
  win_evaluation 4 sampleConfirmState 0 (by decide) (by decide) (by decide)

/-! ## Legal actions (C4, C5) -/

theorem emptyCellMoves_eq (b : List CellState) : ∀ k : Nat,
    emptyCellMoves k b =
      ((List.range b.length).filter (fun i => decide (b[i]? = some CellState.kEmpty))).map
        (fun (i : Nat) => (((i + k : Nat) : Int) + 1)) := by
  induction b with
  | nil => intro k; rfl
  | cons c rest ih =>
    intro k
    have hr : List.range (rest.length + 1) = 0 :: (List.range rest.length).map Nat.succ :=
      List.range_succ_eq_map rest.length
    have hf : ((List.range rest.length).map Nat.succ).filter
          (fun i => decide ((c :: rest)[i]? = some CellState.kEmpty))
        = ((List.range rest.length).filter
            (fun i => decide (rest[i]? = some CellState.kEmpty))).map Nat.succ := by
      rw [List.filter_map]
      congr 1
      apply List.filter_congr
      intro i _
      simp
    have hm : ∀ l : List Nat,
        (l.map Nat.succ).map (fun (i : Nat) => (((i + k : Nat) : Int) + 1))
          = l.map (fun (i : Nat) => (((i + (k + 1) : Nat) : Int) + 1)) := by
      intro l
      rw [List.map_map]
      apply List.map_congr_left
      intro i _
      simp only [Function.comp_apply]
      omega
    simp only [emptyCellMoves, List.length_cons]
    rw [hr, ih (k + 1)]
    by_cases hc : c = CellState.kEmpty
    · rw [if_pos hc]
      rw [List.filter_cons_of_pos (by simp [hc]), hf, List.map_cons, hm]
      simp
    · rw [if_neg hc]
      rw [List.filter_cons_of_neg (by simp [hc]), hf, hm]

theorem emptyCellMoves_zero (b : List CellState) :
    emptyCellMoves 0 b = emptyIndicesSpec b := by
  rw [emptyCellMoves_eq b 0]
  rfl

theorem emptyIndicesSpec_pairwise (b : List CellState) :
    (emptyIndicesSpec b).Pairwise (fun x y => x < y) := by
  unfold emptyIndicesSpec
  apply List.Pairwise.map (fun (i : Nat) => (i : Int) + 1) _
    (List.Pairwise.filter _ (List.pairwise_lt_range b.length))
  intro x y hxy
  show (x : Int) + 1 < (y : Int) + 1
  omega

theorem mem_emptyIndicesSpec (b : List CellState) (a : Int) :
    a ∈ emptyIndicesSpec b ↔ cellAt b a = some CellState.kEmpty := by
  unfold emptyIndicesSpec
  simp only [List.mem_map, List.mem_filter, List.mem_range, decide_eq_true_eq]
  constructor
  · rintro ⟨i, ⟨_, hi⟩, rfl⟩
    rw [cellAt_succ]
    exact hi
  · intro h
    by_cases ha : 1 ≤ a
    · obtain ⟨j, hj⟩ : ∃ j : Nat, a = (j : Int) + 1 := ⟨(a - 1).toNat, by omega⟩
      rw [hj, cellAt_succ] at h
      refine ⟨j, ⟨?_, h⟩, hj.symm⟩
      by_contra hlt
      rw [List.getElem?_eq_none (by omega)] at h
      exact absurd h (by simp)
    · rw [cellAt_eq_none_of_lt b a (by omega)] at h
      exact absurd h (by simp)

theorem emptyIndicesSpec_replicate (N : Nat) :
    emptyIndicesSpec (List.replicate N CellState.kEmpty)
      = (List.range N).map (fun (i : Nat) => (i : Int) + 1) := by
  unfold emptyIndicesSpec
  rw [List.length_replicate]
  congr 1
  rw [List.filter_eq_self]
  intro i hi
  rw [List.mem_range] at hi
  simp [List.getElem?_replicate, hi]

/-- C4 (Guesser legal actions): in a non-terminal state with player 0 to move,
`LegalActions` is the list of the 1-based indices of the Empty cells, in
increasing order; on the initial state it is `1, 2, ..., boardSize`. -/
theorem guesser_legal_actions (s : HSRState) :
    (IsTerminal s = false → s.current_player_ = 0 →
      LegalActions s = emptyIndicesSpec s.board_ ∧
      (LegalActions s).Pairwise (fun x y => x < y) ∧
      (∀ a : Int, a ∈ LegalActions s ↔ cellAt s.board_ a = some CellState.kEmpty)) ∧
    (∀ (N : Nat) (q0 r0 j0 g0 : Int),
      LegalActions (initialState N q0 r0 j0 g0) = (List.range N).map (fun (i : Nat) => (i : Int) + 1)) := by
  have key : ∀ t : HSRState, IsTerminal t = false → t.current_player_ = 0 →
      LegalActions t = emptyIndicesSpec t.board_ := by
    intro t ht hp
    unfold LegalActions
    rw [ht]
    have hne : ¬ t.current_player_ = 1 := by omega
    simp only [Bool.false_eq_true, if_false, if_neg hne]
    exact emptyCellMoves_zero t.board_
  constructor
  · intro ht hp
    rw [key s ht hp]
    exact ⟨rfl, emptyIndicesSpec_pairwise s.board_, mem_emptyIndicesSpec s.board_⟩
  · intro N q0 r0 j0 g0
    rw [key (initialState N q0 r0 j0 g0) (by simp [IsTerminal, initialState]) rfl]
    exact emptyIndicesSpec_replicate N

/-- Instance of C4: a board with the cells 2 and 4 still Empty, and the
initial state of a three-cell board. -/
theorem guesser_legal_actions_witness :
    LegalActions { sampleConfirmState with
        board_ := [CellState.kCross, CellState.kEmpty, CellState.kNought, CellState.kEmpty],
        current_player_ := 0 } = [2, 4] ∧
    LegalActions (initialState 3 5 3 2 0) = [1, 2, 3] := by
  have h := guesser_legal_actions { sampleConfirmState with
        board_ := [CellState.kCross, CellState.kEmpty, CellState.kNought, CellState.kEmpty],
        current_player_ := 0 }
  constructor
  · rw [(h.1 (by decide) (by decide)).1]
    decide
  · rw [h.2 3 5 3 2 0]
    decide

/-- C5: `LegalActions` is empty in every terminal state, whatever the board
and the player to move, and is exactly `[0, 1]` in every non-terminal state
with player 1 to move. -/
theorem legal_actions_terminal_and_adjudicator (s : HSRState) :
    (IsTerminal s = true → LegalActions s = []) ∧
    (IsTerminal s = false → s.current_player_ = 1 → LegalActions s = [0, 1]) := by
  constructor
  · intro ht
    unfold LegalActions
    rw [if_pos ht]
  · intro ht hp
    unfold LegalActions
    rw [ht]
    simp only [Bool.false_eq_true, if_false, if_pos hp]

/-- Instance of C5: the sample state with the outcome settled, and as it is. -/
theorem legal_actions_terminal_and_adjudicator_witness :
    LegalActions { sampleConfirmState with outcome_ := 0 } = [] ∧
    LegalActions sampleConfirmState = [0, 1] :=
  ⟨(legal_actions_terminal_and_adjudicator { sampleConfirmState with outcome_ := 0 }).1
      (by decide),
   (legal_actions_terminal_and_adjudicator sampleConfirmState).2 (by decide) (by decide)⟩

/-! ## Plays and the invariant of reachable states -/

theorem play_append (N : Nat) (as bs : List Int) : ∀ s : HSRState,
    play N s (as ++ bs) = (play N s as).bind (fun s1 => play N s1 bs) := by
  induction as with
  | nil => intro s; rfl
  | cons a rest ih =>
    intro s
    simp only [List.cons_append, play]
    split_ifs
    · cases h : ApplyAction N s a with
      | none => rfl
      | some s1 => exact ih s1
    · rfl

theorem play_single (N : Nat) (s : HSRState) (a : Int) :
    play N s [a] = if a ∈ LegalActions s then ApplyAction N s a else none := by
  simp only [play]
  split_ifs
  · cases ApplyAction N s a <;> rfl
  · rfl

/-- A play extended by one action: the prefix has reached some state in which
the action is legal, and the action has been applied there. -/
theorem play_snoc (N : Nat) (s : HSRState) (as : List Int) (a : Int) (s2 : HSRState)
    (h : play N s (as ++ [a]) = some s2) :
    ∃ s1, play N s as = some s1 ∧ a ∈ LegalActions s1 ∧ ApplyAction N s1 a = some s2 := by
  rw [play_append] at h
  cases h1 : play N s as with
  | none => rw [h1] at h; exact absurd h (by simp)
  | some s1 =>
    rw [h1, Option.some_bind, play_single] at h
    by_cases hl : a ∈ LegalActions s1
    · rw [if_pos hl] at h
      exact ⟨s1, rfl, hl, h⟩
    · rw [if_neg hl] at h
      exact absurd h (by simp)

theorem legal_not_terminal (s : HSRState) (a : Int) (h : a ∈ LegalActions s) :
    IsTerminal s = false := by
  unfold LegalActions at h
  by_cases ht : IsTerminal s = true
  · rw [if_pos ht] at h
    exact absurd h (List.not_mem_nil a)
  · simpa using ht

theorem legal_guesser (s : HSRState) (a : Int) (h : a ∈ LegalActions s)
    (hp : s.current_player_ = 0) : cellAt s.board_ a = some CellState.kEmpty := by
  have ht := legal_not_terminal s a h
  unfold LegalActions at h
  have hne : ¬ s.current_player_ = 1 := by omega
  rw [ht] at h
  simp only [Bool.false_eq_true, if_false, if_neg hne] at h
  rw [emptyCellMoves_zero] at h
  exact (mem_emptyIndicesSpec s.board_ a).1 h

theorem legal_adjudicator (s : HSRState) (a : Int) (h : a ∈ LegalActions s)
    (hp : s.current_player_ = 1) : a = 0 ∨ a = 1 := by
  have ht := legal_not_terminal s a h
  unfold LegalActions at h
  rw [ht] at h
  simp only [Bool.false_eq_true, if_false, if_pos hp] at h
  simpa using h

theorem cellAt_some_range (b : List CellState) (i : Int) (c : CellState)
    (h : cellAt b i = some c) : 1 ≤ i ∧ i ≤ (b.length : Int) := by
  by_cases hi : 1 ≤ i
  · obtain ⟨j, hj⟩ : ∃ j : Nat, i = (j : Int) + 1 := ⟨(i - 1).toNat, by omega⟩
    rw [hj, cellAt_succ] at h
    have hlt : j < b.length := by
      by_contra hge
      rw [List.getElem?_eq_none (by omega)] at h
      exact absurd h (by simp)
    omega
  · rw [cellAt_eq_none_of_lt b i (by omega)] at h
    exact absurd h (by simp)

theorem settle_terminal (s : HSRState)
    (hp : s.current_player_ = 0 ∨ s.current_player_ = 1)
    (hw : s.kNumRungs = 1 ∨ s.kNumJars = 0 ∨ s.kNumQuestions = 0 ∨ s.kNumRungs = 0) :
    IsTerminal (settle s) = true := by
  have ho : (settle s).outcome_ = 0 ∨ (settle s).outcome_ = 1 := by
    by_cases h1 : s.kNumRungs = 1
    · rw [settle_outcome_pwin s h1]
      omega
    · rw [settle_outcome_owin s h1 (by tauto)]
      exact hp
  unfold IsTerminal kInvalidPlayer
  rcases ho with h | h <;> rw [h] <;> decide

/-- The guesser's legal move: the guess is recorded and nothing else of the
board or the counters changes. -/
theorem DoApplyAction_guess_legal (N : Nat) (s : HSRState) (a : Int)
    (hp : s.current_player_ = 0) (hc : cellAt s.board_ a = some CellState.kEmpty) :
    DoApplyAction N s a = some (settle (s.Exists a)) := by
  rw [DoApplyAction_guess N s a hp]
  unfold cellAt at hc
  rw [hc]
  simp

theorem ApplyAction_eq (N : Nat) (s : HSRState) (a : Int) (s1 : HSRState)
    (h : DoApplyAction N s a = some s1) :
    ApplyAction N s a = some { s1 with history_ := s1.history_ ++ [a] } := by
  unfold ApplyAction
  rw [h]

theorem ApplyAction_inv (N : Nat) (s : HSRState) (a : Int) (s2 : HSRState)
    (h : ApplyAction N s a = some s2) :
    ∃ s1, DoApplyAction N s a = some s1 ∧ s2 = { s1 with history_ := s1.history_ ++ [a] } := by
  unfold ApplyAction at h
  cases hd : DoApplyAction N s a with
  | none => rw [hd] at h; exact absurd h (by simp)
  | some s1 =>
    rw [hd] at h
    simp only [Option.some.injEq] at h
    exact ⟨s1, rfl, h.symm⟩

/-- One legal action keeps the invariant and does not fail. -/
theorem ReachInv_step (N : Nat) (q0 : Int) (k : Nat) (s : HSRState) (a : Int)
    (hinv : ReachInv N q0 k s) (ha : a ∈ LegalActions s) :
    ∃ s1, DoApplyAction N s a = some s1 ∧ ReachInv N q0 (k + 1) s1 ∧
      (s.current_player_ = 1 → s1.kNumQuestions = s.kNumQuestions - 1) ∧
      (s.current_player_ = 0 → s1.kNumQuestions = s.kNumQuestions) := by
  obtain ⟨hlen, hp, hq, hg, _⟩ := hinv
  rcases Nat.mod_two_eq_zero_or_one k with hk | hk
  · -- the Guesser moves
    rw [hk] at hp
    have hp0 : s.current_player_ = 0 := by simpa using hp
    have hc := legal_guesser s a ha hp0
    refine ⟨_, DoApplyAction_guess_legal N s a hp0 hc, ⟨?_, ?_, ?_, ?_, ?_⟩, ?_, ?_⟩
    · rw [settle_board]
      exact hlen
    · rw [settle_player]
      show 1 - s.current_player_ = _
      rw [hp0]
      have : (k + 1) % 2 = 1 := by omega
      rw [this]
      rfl
    · rw [settle_questions]
      show s.kNumQuestions = _
      rw [hq]
      have : (k + 1) / 2 = k / 2 := by omega
      rw [this]
    · intro _
      rw [settle_board, settle_guess]
      exact hc
    · intro _ hw
      apply settle_terminal (s.Exists a) (Or.inl hp0)
      rw [settle_rungs, settle_jars, settle_questions] at hw
      exact hw
    · intro h1
      omega
    · intro _
      rw [settle_questions]
      rfl
  · -- the Adjudicator moves
    rw [hk] at hp
    have hp1 : s.current_player_ = 1 := by simpa using hp
    obtain ⟨g1, g2⟩ := cellAt_some_range _ _ _ (hg hk)
    rw [hlen] at g2
    have hk1 : (k + 1) % 2 = 0 := by omega
    have hk2 : (((k + 1) / 2 : Nat) : Int) = ((k / 2 : Nat) : Int) + 1 := by omega
    have fin : ∀ s2 : HSRState, s2.board_.length = N → s2.current_player_ = 1 →
        s2.kNumQuestions = s.kNumQuestions - 1 →
        ReachInv N q0 (k + 1) (settle s2) ∧
          (s.current_player_ = 1 → (settle s2).kNumQuestions = s.kNumQuestions - 1) ∧
          (s.current_player_ = 0 → (settle s2).kNumQuestions = s.kNumQuestions) := by
      intro s2 e1 e2 e3
      refine ⟨⟨?_, ?_, ?_, ?_, ?_⟩, ?_, ?_⟩
      · rw [settle_board]
        exact e1
      · rw [settle_player, e2, hk1]
        rfl
      · rw [settle_questions, e3, hq, hk2]
        omega
      · intro h
        omega
      · intro _ hw
        apply settle_terminal s2 (Or.inr e2)
        rw [settle_rungs, settle_jars, settle_questions] at hw
        exact hw
      · intro _
        rw [settle_questions, e3]
      · intro h
        omega
    by_cases hm : a < 1
    · obtain ⟨b2, e, c1, _⟩ := EFG_ANDR_spec N s hlen g1 g2
      have hd := DoApplyAction_right N s a hp1 hm
      rw [e, Option.map_some'] at hd
      exact ⟨_, hd, fin _ c1 hp1 rfl⟩
    · obtain ⟨b2, e, c1, _⟩ := EFG_ANDL_spec N s hlen g1 g2
      have hd := DoApplyAction_left N s a hp1 (by omega)
      rw [e, Option.map_some'] at hd
      exact ⟨_, hd, fin _ c1 hp1 rfl⟩

theorem ReachInv_history (N : Nat) (q0 : Int) (k : Nat) (s : HSRState) (h : List Int)
    (hinv : ReachInv N q0 k s) : ReachInv N q0 k { s with history_ := h } :=
  hinv

theorem ReachInv_initial (N : Nat) (q0 r0 j0 g0 : Int) :
    ReachInv N q0 0 (initialState N q0 r0 j0 g0) := by
  refine ⟨?_, rfl, ?_, ?_, ?_⟩
  · simp [initialState]
  · simp [initialState]
  · intro h
    omega
  · intro h
    omega

/-- Every state reached by a legal play from the initial state satisfies the
invariant, with `k` the number of actions played. -/
theorem ReachInv_play (N : Nat) (q0 r0 j0 g0 : Int) (as : List Int) :
    ∀ s, play N (initialState N q0 r0 j0 g0) as = some s → ReachInv N q0 as.length s := by
  induction as using List.reverseRecOn with
  | nil =>
    intro s h
    simp only [play, Option.some.injEq] at h
    rw [← h]
    exact ReachInv_initial N q0 r0 j0 g0
  | append_singleton as a ih =>
    intro s h
    obtain ⟨s1, h1, hl, ha⟩ := play_snoc N _ as a s h
    obtain ⟨s2, hd, e⟩ := ApplyAction_inv N s1 a s ha
    obtain ⟨s3, hd3, hinv, _⟩ := ReachInv_step N q0 as.length s1 a (ih s1 h1) hl
    rw [hd, Option.some.injEq] at hd3
    rw [e, List.length_append, List.length_singleton, hd3]
    exact ReachInv_history N q0 _ s3 _ hinv

/-! ## C6: length of a play -/

theorem cellAt_isSome (b : List CellState) (i : Int) (h1 : 1 ≤ i) (h2 : i ≤ (b.length : Int)) :
    ∃ c, cellAt b i = some c := by
  unfold cellAt
  exact boardGet_isSome b (i - 1) (by omega) (by omega)

theorem cellAt_eq_none_of_gt (b : List CellState) (i : Int) (h : (b.length : Int) < i) :
    cellAt b i = none := by
  obtain ⟨j, hj⟩ : ∃ j : Nat, i = (j : Int) + 1 := ⟨(i - 1).toNat, by omega⟩
  rw [hj, cellAt_succ]
  exact List.getElem?_eq_none (by omega)

/-- A cell that is crossed out was Empty, a nought, or a cross already. -/
theorem crossed_cases (old new : Option CellState) (c : CellState)
    (ho : old = some c) (hn : new = some CellState.kCross) :
    new = old ∨
      (old = some CellState.kEmpty ∧
        (new = some CellState.kCross ∨ new = some CellState.kNought)) ∨
      (old = some CellState.kNought ∧ new = some CellState.kCross) := by
  cases c with
  | kEmpty => exact Or.inr (Or.inl ⟨ho, Or.inl hn⟩)
  | kNought => exact Or.inr (Or.inr ⟨ho, hn⟩)
  | kCross => exact Or.inl (by rw [ho, hn])

/-- One legal action in a reachable state: each cell keeps its mark, or goes
from Empty to a mark, or from nought to cross. -/
theorem step_cells (N : Nat) (q0 : Int) (k : Nat) (s : HSRState) (a : Int)
    (hinv : ReachInv N q0 k s) (ha : a ∈ LegalActions s) (s1 : HSRState)
    (hd : DoApplyAction N s a = some s1) (i : Int) :
    cellAt s1.board_ i = cellAt s.board_ i ∨
      (cellAt s.board_ i = some CellState.kEmpty ∧
        (cellAt s1.board_ i = some CellState.kCross ∨
          cellAt s1.board_ i = some CellState.kNought)) ∨
      (cellAt s.board_ i = some CellState.kNought ∧
        cellAt s1.board_ i = some CellState.kCross) := by
  obtain ⟨hlen, hp, _, hg, _⟩ := hinv
  rcases Nat.mod_two_eq_zero_or_one k with hk | hk
  · rw [hk] at hp
    have hp0 : s.current_player_ = 0 := by simpa using hp
    have hc := legal_guesser s a ha hp0
    rw [DoApplyAction_guess_legal N s a hp0 hc, Option.some.injEq] at hd
    left
    rw [← hd, settle_board]
    rfl
  · rw [hk] at hp
    have hp1 : s.current_player_ = 1 := by simpa using hp
    have hge := hg hk
    obtain ⟨g1, g2⟩ := cellAt_some_range _ _ _ hge
    rw [hlen] at g2
    by_cases hm : a < 1
    · obtain ⟨b2, e, c1, c2, c3, c4⟩ := EFG_ANDR_spec N s hlen g1 g2
      rw [DoApplyAction_right N s a hp1 hm, e, Option.map_some', Option.some.injEq] at hd
      rw [← hd, settle_board]
      show cellAt b2 i = _ ∨ (_ ∧ (cellAt b2 i = _ ∨ cellAt b2 i = _)) ∨ (_ ∧ cellAt b2 i = _)
      rcases lt_trichotomy i s.hsr_guess with hlt | heq | hgt
      · by_cases hi : 1 ≤ i
        · obtain ⟨c, hc⟩ := cellAt_isSome s.board_ i hi (by omega)
          exact crossed_cases _ _ c hc (c3 i hi hlt)
        · left
          rw [cellAt_eq_none_of_lt b2 i (by omega), cellAt_eq_none_of_lt s.board_ i (by omega)]
      · rw [heq]
        exact Or.inr (Or.inl ⟨hge, Or.inr c2⟩)
      · exact Or.inl (c4 i hgt)
    · obtain ⟨b2, e, c1, c2, c3⟩ := EFG_ANDL_spec N s hlen g1 g2
      rw [DoApplyAction_left N s a hp1 (by omega), e, Option.map_some', Option.some.injEq] at hd
      rw [← hd, settle_board]
      show cellAt b2 i = _ ∨ (_ ∧ (cellAt b2 i = _ ∨ cellAt b2 i = _)) ∨ (_ ∧ cellAt b2 i = _)
      by_cases hlt : i < s.hsr_guess
      · exact Or.inl (c3 i hlt)
      · by_cases hi : i ≤ (N : Int)
        · obtain ⟨c, hc⟩ := cellAt_isSome s.board_ i (by omega) (by omega)
          exact crossed_cases _ _ c hc (c2 i (by omega) hi)
        · left
          rw [cellAt_eq_none_of_gt b2 i (by omega), cellAt_eq_none_of_gt s.board_ i (by omega)]

theorem cellRank_le_of_cases (old new : Option CellState)
    (h : new = old ∨
      (old = some CellState.kEmpty ∧
        (new = some CellState.kCross ∨ new = some CellState.kNought)) ∨
      (old = some CellState.kNought ∧ new = some CellState.kCross)) :
    cellRank old ≤ cellRank new := by
  rcases h with h | ⟨h1, h2 | h2⟩ | ⟨h1, h2⟩
  · rw [h]
  · rw [h1, h2]; decide
  · rw [h1, h2]; decide
  · rw [h1, h2]; decide

/-- Along the rest of a play from a reachable state no mark moves backwards. -/
theorem play_rank_mono (N : Nat) (q0 : Int) (bs : List Int) :
    ∀ (k : Nat) (s s2 : HSRState), ReachInv N q0 k s → play N s bs = some s2 →
      ∀ i : Int, cellRank (cellAt s.board_ i) ≤ cellRank (cellAt s2.board_ i) := by
  induction bs with
  | nil =>
    intro k s s2 _ h i
    simp only [play, Option.some.injEq] at h
    rw [h]
  | cons a rest ih =>
    intro k s s2 hinv h i
    simp only [play] at h
    by_cases hl : a ∈ LegalActions s
    · rw [if_pos hl] at h
      obtain ⟨s1, hd, hinv1, _⟩ := ReachInv_step N q0 k s a hinv hl
      rw [ApplyAction_eq N s a s1 hd] at h
      have hstep := cellRank_le_of_cases _ _ (step_cells N q0 k s a hinv hl s1 hd i)
      have hrest := ih (k + 1) _ s2 (ReachInv_history N q0 _ s1 _ hinv1) h i
      exact le_trans hstep hrest
    · rw [if_neg hl] at h
      exact absurd h (by simp)

/-- C7, the claim as stated fails: on a five-cell board the legal play
1, 0, 3, 0 marks cell 1 with a nought (first right confirm) and then changes
that mark to a cross (second right confirm, which crosses out every cell
below the new rung 3). -/
theorem board_monotone_counterexample :
    (play 5 (initialState 5 5 5 5 0) [1, 0, 3]).map (fun s => cellAt s.board_ 1)
      = some (some CellState.kNought) ∧
    (play 5 (initialState 5 5 5 5 0) [1, 0, 3, 0]).map (fun s => cellAt s.board_ 1)
      = some (some CellState.kCross) := by
  decide

/-- C7 (amended): along every sequence of legal actions from the initial
state, one action changes the mark of a cell only from Empty to cross, from
Empty to nought, or from nought to cross; so it never sets a cell to Empty and
never changes a cell that is already a cross, and over the rest of the play
the marks only move forward in the order Empty, nought, cross (at most two
changes per cell). -/
theorem board_monotone (N : Nat) (q0 r0 j0 g0 : Int) (as : List Int) (s : HSRState)
    (h : play N (initialState N q0 r0 j0 g0) as = some s) :
    (∀ a : Int, a ∈ LegalActions s → ∃ s1, ApplyAction N s a = some s1 ∧
      ∀ i : Int,
        (cellAt s1.board_ i = cellAt s.board_ i ∨
          (cellAt s.board_ i = some CellState.kEmpty ∧
            (cellAt s1.board_ i = some CellState.kCross ∨
              cellAt s1.board_ i = some CellState.kNought)) ∨
          (cellAt s.board_ i = some CellState.kNought ∧
            cellAt s1.board_ i = some CellState.kCross)) ∧
        (cellAt s1.board_ i = some CellState.kEmpty →
          cellAt s.board_ i = some CellState.kEmpty) ∧
        (cellAt s.board_ i = some CellState.kCross →
          cellAt s1.board_ i = some CellState.kCross)) ∧
    (∀ (bs : List Int) (s2 : HSRState), play N s bs = some s2 →
      ∀ i : Int, cellRank (cellAt s.board_ i) ≤ cellRank (cellAt s2.board_ i)) := by
  have hinv := ReachInv_play N q0 r0 j0 g0 as s h
  constructor
  · intro a ha
    obtain ⟨s1, hd, _⟩ := ReachInv_step N q0 as.length s a hinv ha
    refine ⟨_, ApplyAction_eq N s a s1 hd, ?_⟩
    intro i
    have hc := step_cells N q0 as.length s a hinv ha s1 hd i
    show (cellAt s1.board_ i = _ ∨ (_ ∧ (cellAt s1.board_ i = _ ∨ cellAt s1.board_ i = _)) ∨
        (_ ∧ cellAt s1.board_ i = _)) ∧ (cellAt s1.board_ i = _ → _) ∧ (_ → cellAt s1.board_ i = _)
    refine ⟨hc, ?_, ?_⟩
    · intro he
      rcases hc with h1 | ⟨h1, _⟩ | ⟨_, h2⟩
      · rw [← h1]; exact he
      · exact h1
      · rw [he] at h2
        exact absurd h2 (by simp)
    · intro hx
      rcases hc with h1 | ⟨h1, _⟩ | ⟨h1, _⟩
      · rw [h1]; exact hx
      · rw [hx] at h1
        exact absurd h1 (by simp)
      · rw [hx] at h1
        exact absurd h1 (by simp)
  · intro bs s2 hb
    exact play_rank_mono N q0 bs as.length s s2 hinv hb

/-- Instance of the amended C7: the state after the legal play 1, 0, 3 on a
five-cell board. -/
theorem board_monotone_witness :
    ∃ s, play 5 (initialState 5 5 5 5 0) [1, 0, 3] = some s ∧
      ((∀ a : Int, a ∈ LegalActions s → ∃ s1, ApplyAction 5 s a = some s1 ∧
        ∀ i : Int,
          (cellAt s1.board_ i = cellAt s.board_ i ∨
            (cellAt s.board_ i = some CellState.kEmpty ∧
              (cellAt s1.board_ i = some CellState.kCross ∨
                cellAt s1.board_ i = some CellState.kNought)) ∨
            (cellAt s.board_ i = some CellState.kNought ∧
              cellAt s1.board_ i = some CellState.kCross)) ∧
          (cellAt s1.board_ i = some CellState.kEmpty →
            cellAt s.board_ i = some CellState.kEmpty) ∧
          (cellAt s.board_ i = some CellState.kCross →
            cellAt s1.board_ i = some CellState.kCross)) ∧
      (∀ (bs : List Int) (s2 : HSRState), play 5 s bs = some s2 →
        ∀ i : Int, cellRank (cellAt s.board_ i) ≤ cellRank (cellAt s2.board_ i))) :=
  ⟨_, rfl, board_monotone 5 5 5 5 0 [1, 0, 3] _ rfl⟩

/-! ## C8, C9: the last cell followed by a right confirm -/

theorem mem_LegalActions_guesser (s : HSRState) (a : Int) (ht : IsTerminal s = false)
    (hp : s.current_player_ = 0) (hc : cellAt s.board_ a = some CellState.kEmpty) :
    a ∈ LegalActions s := by
  unfold LegalActions
  have hne : ¬ s.current_player_ = 1 := by omega
  rw [ht]
  simp only [Bool.false_eq_true, if_false, if_neg hne]
  rw [emptyCellMoves_zero]
  exact (mem_emptyIndicesSpec s.board_ a).2 hc

theorem mem_LegalActions_adjudicator (s : HSRState) (ht : IsTerminal s = false)
    (hp : s.current_player_ = 1) : (0 : Int) ∈ LegalActions s := by
  unfold LegalActions
  rw [ht]
  simp only [Bool.false_eq_true, if_false, if_pos hp]
  exact List.mem_cons_self 0 [1]

theorem cellAt_replicate_last (N : Nat) (hN : 1 ≤ N) :
    cellAt (List.replicate N CellState.kEmpty) (N : Int) = some CellState.kEmpty := by
  obtain ⟨k, hk⟩ : ∃ k : Nat, N = k + 1 := ⟨N - 1, by omega⟩
  have e : ((N : Nat) : Int) = (k : Int) + 1 := by omega
  rw [e, cellAt_succ, List.getElem?_replicate, if_pos (by omega)]

/-- The Guesser names the last cell of the initial board and the Adjudicator
confirms right: both actions succeed, the rung counter ends at 0 and the
outcome is player 1; the first action is legal, and so is the second when the
start counters satisfy no win predicate. -/
theorem last_cell_right_confirm (N : Nat) (q0 r0 j0 g0 : Int) (hN : 1 ≤ N) :
    ∃ s1 s2, ApplyAction N (initialState N q0 r0 j0 g0) (N : Int) = some s1 ∧
      ApplyAction N s1 0 = some s2 ∧ s2.kNumRungs = 0 ∧ s2.outcome_ = 1 ∧
      (N : Int) ∈ LegalActions (initialState N q0 r0 j0 g0) ∧
      (r0 ≠ 1 → j0 ≠ 0 → q0 ≠ 0 → r0 ≠ 0 → (0 : Int) ∈ LegalActions s1) := by
  have hc : cellAt (initialState N q0 r0 j0 g0).board_ (N : Int) = some CellState.kEmpty :=
    cellAt_replicate_last N hN
  have hd1 := DoApplyAction_guess_legal N (initialState N q0 r0 j0 g0) (N : Int) rfl hc
  have ha1 := ApplyAction_eq N _ _ _ hd1
  -- the state in which the Adjudicator answers
  have hlen : ({ settle ((initialState N q0 r0 j0 g0).Exists (N : Int)) with
      history_ := (settle ((initialState N q0 r0 j0 g0).Exists (N : Int))).history_ ++ [(N : Int)] }
        : HSRState).board_.length = N := by
    show (settle _).board_.length = N
    rw [settle_board]
    simp [HSRState.Exists, initialState]
  have hgs : ({ settle ((initialState N q0 r0 j0 g0).Exists (N : Int)) with
      history_ := (settle ((initialState N q0 r0 j0 g0).Exists (N : Int))).history_ ++ [(N : Int)] }
        : HSRState).hsr_guess = (N : Int) := by
    show (settle _).hsr_guess = (N : Int)
    rw [settle_guess]
    rfl
  have hpl : ({ settle ((initialState N q0 r0 j0 g0).Exists (N : Int)) with
      history_ := (settle ((initialState N q0 r0 j0 g0).Exists (N : Int))).history_ ++ [(N : Int)] }
        : HSRState).current_player_ = 1 := by
    show (settle _).current_player_ = 1
    rw [settle_player]
    rfl
  obtain ⟨b2, e, _⟩ := EFG_ANDR_spec N _ hlen (by rw [hgs]; omega) (by rw [hgs])
  have hd2 := DoApplyAction_right N _ 0 hpl (by decide)
  rw [e, Option.map_some'] at hd2
  have ha2 := ApplyAction_eq N _ _ _ hd2
  refine ⟨_, _, ha1, ha2, ?_, ?_, ?_, ?_⟩
  · show (settle _).kNumRungs = 0
    rw [settle_rungs]
    show (N : Int) - _ = 0
    rw [hgs]
    omega
  · show (settle _).outcome_ = 1
    rw [settle_outcome_owin]
    · exact hpl
    · show (N : Int) - _ ≠ 1
      rw [hgs]
      omega
    · right; right
      show (N : Int) - _ = 0
      rw [hgs]
      omega
  · exact mem_LegalActions_guesser _ _ (by simp [IsTerminal, initialState]) rfl hc
  · intro hr1 hj hq hr0
    apply mem_LegalActions_adjudicator _ _ hpl
    unfold IsTerminal
    show decide ((settle _).outcome_ ≠ kInvalidPlayer) = false
    rw [settle_outcome_neither _ hr1 hj hq hr0]
    simp [HSRState.Exists, initialState]

theorem play_two (N : Nat) (s s1 s2 : HSRState) (a b : Int)
    (ha : a ∈ LegalActions s) (h1 : ApplyAction N s a = some s1)
    (hb : b ∈ LegalActions s1) (h2 : ApplyAction N s1 b = some s2) :
    play N s [a, b] = some s2 := by
  simp only [play, if_pos ha, h1, if_pos hb, h2]

/-- C8 (win scenario, outcome part): from the initial state whose start
counters satisfy neither win predicate, the Guesser action `move = boardSize`
followed by the Adjudicator action `move = 0` is a legal play that ends in a
terminal state with `Returns() = (-1, +1)`. -/
theorem win_scenario_returns (N : Nat) (q0 r0 j0 g0 : Int) (hN : 1 ≤ N)
    (hr1 : r0 ≠ 1) (hj : j0 ≠ 0) (hq : q0 ≠ 0) (hr0 : r0 ≠ 0) :
    ∃ s, play N (initialState N q0 r0 j0 g0) [(N : Int), 0] = some s ∧
      IsTerminal s = true ∧ Returns s = [-1, 1] := by
  obtain ⟨s1, s2, a1, a2, _, ho, l1, l2⟩ := last_cell_right_confirm N q0 r0 j0 g0 hN
  refine ⟨s2, play_two N _ s1 s2 _ _ l1 a1 (l2 hr1 hj hq hr0) a2, ?_, ?_⟩
  · unfold IsTerminal
    rw [ho]
    decide
  · unfold Returns
    rw [ho]
    decide

/-- Instance of C8 on a four-cell board with start counters 5, 4, 5. -/
theorem win_scenario_returns_witness :
    ∃ s, play 4 (initialState 4 5 4 5 0) [((4 : Nat) : Int), 0] = some s ∧
      IsTerminal s = true ∧ Returns s = [-1, 1] :=
  win_scenario_returns 4 5 4 5 0 (by decide) (by decide) (by decide) (by decide) (by decide)

/-- C9, the claim as stated fails: on a four-cell board the legal play 4, 0
leaves `remainingRungs = 4 - 4 = 0`, not 1. -/
theorem win_scenario_rungs_counterexample :
    (play 4 (initialState 4 5 4 5 0) [4, 0]).map (fun s => s.kNumRungs) = some 0 ∧
    (play 4 (initialState 4 5 4 5 0) [4, 0]).map (fun s => s.kNumRungs) ≠ some 1 := by
  decide

/-- C9 (amended): from the initial state of a board with at least one cell,
the Guesser action `move = boardSize` followed by the Adjudicator action
`move = 0` leaves `remainingRungs = boardSize - boardSize = 0`; the two
actions form a legal play when the start counters satisfy neither win
predicate. -/
theorem win_scenario_rungs (N : Nat) (q0 r0 j0 g0 : Int) (hN : 1 ≤ N) :
    ∃ s1 s2, ApplyAction N (initialState N q0 r0 j0 g0) (N : Int) = some s1 ∧
      ApplyAction N s1 0 = some s2 ∧ s2.kNumRungs = 0 ∧
      (r0 ≠ 1 → j0 ≠ 0 → q0 ≠ 0 → r0 ≠ 0 →
        play N (initialState N q0 r0 j0 g0) [(N : Int), 0] = some s2) := by
  obtain ⟨s1, s2, a1, a2, hr, _, l1, l2⟩ := last_cell_right_confirm N q0 r0 j0 g0 hN
  exact ⟨s1, s2, a1, a2, hr, fun hr1 hj hq hr0 =>
    play_two N _ s1 s2 _ _ l1 a1 (l2 hr1 hj hq hr0) a2⟩

/-- Instance of the amended C9 on a four-cell board. -/
theorem win_scenario_rungs_witness :
    ∃ s1 s2, ApplyAction 4 (initialState 4 5 4 5 0) ((4 : Nat) : Int) = some s1 ∧
      ApplyAction 4 s1 0 = some s2 ∧ s2.kNumRungs = 0 ∧
      ((4 : Int) ≠ 1 → (5 : Int) ≠ 0 → (5 : Int) ≠ 0 → (4 : Int) ≠ 0 →
        play 4 (initialState 4 5 4 5 0) [((4 : Nat) : Int), 0] = some s2) :=
  win_scenario_rungs 4 5 4 5 0 (by decide)

/-! ## C10: `UndoAction` -/

/-- C10, the code at three failing inputs.  After the legal play 1, 1 on a
four-cell board every cell is a cross; undoing the last action (player 1,
move 1) empties `board_[1]`, the second cell, and leaves cell 1 a cross.
After the legal play 4 the undo of that action (player 0, move 4) writes
`board_[4]`, which is outside the four-cell board.  After the legal play
3, 1, 2 on a five-cell board the cells 3, 4, 5 are crossed out and the guess 2
is pending; undoing that guess (player 0, move 2) writes `board_[2]`, which
turns cell 3 from cross to Empty. -/
theorem undo_action_wrong_cell :
    (play 4 (initialState 4 5 4 5 0) [1, 1]).map (fun s => s.board_)
      = some [CellState.kCross, CellState.kCross, CellState.kCross, CellState.kCross] ∧
    ((play 4 (initialState 4 5 4 5 0) [1, 1]).bind (fun s => UndoAction s 1 1)).map
        (fun s => s.board_)
      = some [CellState.kCross, CellState.kEmpty, CellState.kCross, CellState.kCross] ∧
    (play 4 (initialState 4 5 4 5 0) [4]).isSome = true ∧
    (play 4 (initialState 4 5 4 5 0) [4]).bind (fun s => UndoAction s 0 4) = none ∧
    (play 5 (initialState 5 5 5 5 0) [3, 1, 2]).map (fun s => s.board_)
      = some [CellState.kEmpty, CellState.kEmpty, CellState.kCross, CellState.kCross,
          CellState.kCross] ∧
    ((play 5 (initialState 5 5 5 5 0) [3, 1, 2]).bind (fun s => UndoAction s 0 2)).map
        (fun s => s.board_)
      = some [CellState.kEmpty, CellState.kEmpty, CellState.kEmpty, CellState.kCross,
          CellState.kCross] := by
  decide

/-! ## C11: branch letters of `ActionToString` -/

/-- C11, the code at the failing input: in the sample state (player 1 to
move) `DoApplyAction` runs `EFG_ANDR`, the right branch, for the action 0 and
`EFG_ANDL`, the left branch, for the action 1, while `ActionToString` renders
the action 0 with the letter L and the action 1 with the letter R. -/
theorem action_to_string_branch_letters :
    DoApplyAction 4 sampleConfirmState 0 = (EFG_ANDR 4 sampleConfirmState).map settle ∧
    ActionToString 4 sampleConfirmState 1 0 = some "Opponent(L)" ∧
    DoApplyAction 4 sampleConfirmState 1 = (EFG_ANDL 4 sampleConfirmState).map settle ∧
    ActionToString 4 sampleConfirmState 1 1 = some "Opponent(R)" := by
  decide

/-! ## C12: frame of the Guesser's move -/

/-- Counters after an action of a player other than player 1: the confirm
branches are not run, so the three counters are the old ones. -/
theorem DoApplyAction_counters_of_not_adjudicator (N : Nat) (s : HSRState) (move : Int)
    (s1 : HSRState) (hp : s.current_player_ ≠ 1) (h : DoApplyAction N s move = some s1) :
    s1.kNumQuestions = s.kNumQuestions ∧ s1.kNumRungs = s.kNumRungs ∧
      s1.kNumJars = s.kNumJars ∧ s1.board_ = s.board_ := by
  by_cases hp0 : s.current_player_ = 0
  · rw [DoApplyAction_guess N s move hp0] at h
    cases hg : boardGet s.board_ (move - 1) with
    | none => rw [hg] at h; exact absurd h (by simp)
    | some c =>
      rw [hg] at h
      simp only [Option.some.injEq] at h
      rw [← h, settle_questions, settle_rungs, settle_jars, settle_board]
      split_ifs <;> exact ⟨rfl, rfl, rfl, rfl⟩
  · rw [DoApplyAction_other N s move hp0 hp, Option.some.injEq] at h
    rw [← h, settle_questions, settle_rungs, settle_jars, settle_board]
    exact ⟨rfl, rfl, rfl, rfl⟩

/-- C12 (Guesser move frame): in a non-terminal state with player 0 to move,
a legal action `move` (its cell is Empty) succeeds, sets the pending guess to
`move` and the player to move to 1, and leaves the board and the three
counters unchanged; more generally no action of a player other than player 1
changes a counter. -/
theorem guesser_move_frame (N : Nat) (s : HSRState) (move : Int)
    (_hnt : IsTerminal s = false) (hp : s.current_player_ = 0)
    (hl : move ∈ LegalActions s) :
    cellAt s.board_ move = some CellState.kEmpty ∧
    (∃ s1, DoApplyAction N s move = some s1 ∧
      s1.hsr_guess = move ∧ s1.current_player_ = 1 ∧ s1.board_ = s.board_ ∧
      s1.kNumQuestions = s.kNumQuestions ∧ s1.kNumRungs = s.kNumRungs ∧
      s1.kNumJars = s.kNumJars) ∧
    (∀ (t : HSRState) (m : Int) (t1 : HSRState), t.current_player_ ≠ 1 →
      DoApplyAction N t m = some t1 →
      t1.kNumQuestions = t.kNumQuestions ∧ t1.kNumRungs = t.kNumRungs ∧
        t1.kNumJars = t.kNumJars) := by
  have hc := legal_guesser s move hl hp
  refine ⟨hc, ⟨_, DoApplyAction_guess_legal N s move hp hc, ?_, ?_, ?_, ?_, ?_, ?_⟩, ?_⟩
  · rw [settle_guess]
    rfl
  · rw [settle_player]
    show 1 - s.current_player_ = 1
    rw [hp]
    rfl
  · rw [settle_board]
    rfl
  · rw [settle_questions]
    rfl
  · rw [settle_rungs]
    rfl
  · rw [settle_jars]
    rfl
  · intro t m t1 ht h
    obtain ⟨e1, e2, e3, _⟩ := DoApplyAction_counters_of_not_adjudicator N t m t1 ht h
    exact ⟨e1, e2, e3⟩

/-- Instance of C12: the Guesser names cell 2 on the initial four-cell board. -/
theorem guesser_move_frame_witness :
    cellAt (initialState 4 5 4 5 0).board_ 2 = some CellState.kEmpty ∧
    (∃ s1, DoApplyAction 4 (initialState 4 5 4 5 0) 2 = some s1 ∧
      s1.hsr_guess = 2 ∧ s1.current_player_ = 1 ∧
      s1.board_ = (initialState 4 5 4 5 0).board_ ∧
      s1.kNumQuestions = (initialState 4 5 4 5 0).kNumQuestions ∧
      s1.kNumRungs = (initialState 4 5 4 5 0).kNumRungs ∧
      s1.kNumJars = (initialState 4 5 4 5 0).kNumJars) ∧
    (∀ (t : HSRState) (m : Int) (t1 : HSRState), t.current_player_ ≠ 1 →
      DoApplyAction 4 t m = some t1 →
      t1.kNumQuestions = t.kNumQuestions ∧ t1.kNumRungs = t.kNumRungs ∧
        t1.kNumJars = t.kNumJars) :=
  guesser_move_frame 4 (initialState 4 5 4 5 0) 2 (by decide) (by decide) (by decide)

/-! ## C13: `Returns` -/

/-- C13: `Returns()` is `(+1, -1)` when the outcome is player 0, `(-1, +1)`
when it is player 1 and `(0, 0)` when it is undetermined (or any other
value); in every state the two entries sum to 0. -/
theorem returns_zero_sum (s : HSRState) :
    (s.outcome_ = 0 → Returns s = [1, -1]) ∧
    (s.outcome_ = 1 → Returns s = [-1, 1]) ∧
    (s.outcome_ = kInvalidPlayer → Returns s = [0, 0]) ∧
    (s.outcome_ ≠ 0 → s.outcome_ ≠ 1 → Returns s = [0, 0]) ∧
    (Returns s).length = 2 ∧ (Returns s).sum = 0 := by
  refine ⟨?_, ?_, ?_, ?_, ?_, ?_⟩
  · intro h
    simp [Returns, h]
  · intro h
    simp [Returns, h]
  · intro h
    simp [Returns, h, kInvalidPlayer]
  · intro h0 h1
    simp [Returns, h0, h1]
  · unfold Returns
    split_ifs <;> rfl
  · unfold Returns
    split_ifs <;> rfl

/-- Instance of C13: the terminal state after the play 4, 0 on four cells
(outcome player 1). -/
theorem returns_zero_sum_witness :
    ∃ s, play 4 (initialState 4 5 4 5 0) [4, 0] = some s ∧ IsTerminal s = true ∧
      Returns s = [-1, 1] ∧ (Returns s).sum = 0 :=
  ⟨_, rfl, by decide,
    (returns_zero_sum _).2.1 (by decide), (returns_zero_sum _).2.2.2.2.2⟩

/-! ## Induction along legal plays -/

/-- Induction over the legal plays from the initial state: a property that
holds initially and is kept by every legal action applied in a state that
satisfies the reachability invariant holds after every legal play. -/
theorem play_induct (N : Nat) (q0 r0 j0 g0 : Int) (P : Nat → HSRState → Prop)
    (h0 : P 0 (initialState N q0 r0 j0 g0))
    (hstep : ∀ (k : Nat) (s : HSRState) (a : Int) (s2 : HSRState),
      ReachInv N q0 k s → P k s → a ∈ LegalActions s → ApplyAction N s a = some s2 →
      P (k + 1) s2)
    (as : List Int) :
    ∀ s, play N (initialState N q0 r0 j0 g0) as = some s → P as.length s := by
  induction as using List.reverseRecOn with
  | nil =>
    intro s h
    simp only [play, Option.some.injEq] at h
    rw [← h]
    exact h0
  | append_singleton as a ih =>
    intro s h
    obtain ⟨s1, h1, hl, ha⟩ := play_snoc N _ as a s h
    rw [List.length_append, List.length_singleton]
    exact hstep as.length s1 a s (ReachInv_play N q0 r0 j0 g0 as s1 h1) (ih s1 h1) hl ha

/-- Every legal action in a reachable state is applied without failure. -/
theorem legal_applies (N : Nat) (q0 : Int) (k : Nat) (s : HSRState) (a : Int)
    (hinv : ReachInv N q0 k s) (ha : a ∈ LegalActions s) :
    ∃ s1, DoApplyAction N s a = some s1 ∧
      ApplyAction N s a = some { s1 with history_ := s1.history_ ++ [a] } := by
  obtain ⟨s1, hd, _⟩ := ReachInv_step N q0 k s a hinv ha
  exact ⟨s1, hd, ApplyAction_eq N s a s1 hd⟩

/-! ## C14: turn alternation -/

theorem DoApplyAction_player (N : Nat) (s : HSRState) (move : Int) (s1 : HSRState)
    (h : DoApplyAction N s move = some s1) :
    s1.current_player_ = 1 - s.current_player_ := by
  obtain ⟨s2, e, f1, _⟩ := DoApplyAction_shape N s move s1 h
  rw [e, settle_player, f1]

/-- C14 (turn alternation): every applied action turns the current player `p`
into `1 - p` (so 0 into 1 and 1 into 0), and an action whose indices are on
the board is applied without failure; along every legal play from the
initial state the player to move after `k` actions is `k mod 2`, that is the
mover of the `k`-th action (counted from 0) is player `k mod 2`, and every
legal action is applied without failure. -/
theorem turn_alternation (N : Nat) (q0 r0 j0 g0 : Int) :
    (∀ (s : HSRState) (move : Int) (s1 : HSRState), DoApplyAction N s move = some s1 →
      s1.current_player_ = 1 - s.current_player_) ∧
    (∀ (s : HSRState) (move : Int), s.board_.length = N →
      (s.current_player_ = 1 → 1 ≤ s.hsr_guess ∧ s.hsr_guess ≤ (N : Int)) →
      (s.current_player_ = 0 → 1 ≤ move ∧ move ≤ (N : Int)) →
      ∃ s1, DoApplyAction N s move = some s1 ∧
        s1.current_player_ = 1 - s.current_player_) ∧
    (∀ (as : List Int) (s : HSRState), play N (initialState N q0 r0 j0 g0) as = some s →
      s.current_player_ = ((as.length % 2 : Nat) : Int) ∧
      (∀ a : Int, a ∈ LegalActions s → ∃ s1, ApplyAction N s a = some s1 ∧
        s1.current_player_ = 1 - s.current_player_)) := by
  refine ⟨DoApplyAction_player N, ?_, ?_⟩
  · intro s move hlen hg hmv
    obtain ⟨s1, hd⟩ := DoApplyAction_succeeds N s move hlen hg hmv
    exact ⟨s1, hd, DoApplyAction_player N s move s1 hd⟩
  · intro as s h
    have hinv := ReachInv_play N q0 r0 j0 g0 as s h
    refine ⟨hinv.2.1, ?_⟩
    intro a ha
    obtain ⟨s1, hd, hap⟩ := legal_applies N q0 as.length s a hinv ha
    exact ⟨_, hap, DoApplyAction_player N s a s1 hd⟩

/-- Instance of C14: the state after the legal play 1, 0, 3 on five cells. -/
theorem turn_alternation_witness :
    ∃ s, play 5 (initialState 5 5 5 5 0) [1, 0, 3] = some s ∧
      s.current_player_ = (((([1, 0, 3] : List Int).length % 2 : Nat)) : Int) ∧
      (∀ a : Int, a ∈ LegalActions s → ∃ s1, ApplyAction 5 s a = some s1 ∧
        s1.current_player_ = 1 - s.current_player_) :=
  ⟨_, rfl, (turn_alternation 5 5 5 5 0).2.2 [1, 0, 3] _ rfl⟩

/-! ## C15: the counters stay non-negative -/

/-- A non-terminal state reached by at least one action satisfies no win
predicate. -/
theorem ReachInv_no_win (N : Nat) (q0 : Int) (k : Nat) (s : HSRState)
    (hinv : ReachInv N q0 k s) (hk : 1 ≤ k) (hnt : IsTerminal s = false) :
    s.kNumRungs ≠ 1 ∧ s.kNumJars ≠ 0 ∧ s.kNumQuestions ≠ 0 ∧ s.kNumRungs ≠ 0 := by
  have h5 := hinv.2.2.2.2 hk
  refine ⟨?_, ?_, ?_, ?_⟩ <;> intro hc
  · rw [h5 (Or.inl hc)] at hnt
    exact absurd hnt (by simp)
  · rw [h5 (Or.inr (Or.inl hc))] at hnt
    exact absurd hnt (by simp)
  · rw [h5 (Or.inr (Or.inr (Or.inl hc)))] at hnt
    exact absurd hnt (by simp)
  · rw [h5 (Or.inr (Or.inr (Or.inr hc)))] at hnt
    exact absurd hnt (by simp)

/-- The result of a legal action in a reachable state, by mover and branch. -/
theorem step_cases (N : Nat) (q0 : Int) (k : Nat) (s : HSRState) (a : Int) (s1 : HSRState)
    (hinv : ReachInv N q0 k s) (ha : a ∈ LegalActions s)
    (hd : DoApplyAction N s a = some s1) :
    (s.current_player_ = 0 ∧ k % 2 = 0 ∧ cellAt s.board_ a = some CellState.kEmpty ∧
      s1 = settle (s.Exists a)) ∨
    (s.current_player_ = 1 ∧ k % 2 = 1 ∧ a = 0 ∧
      1 ≤ s.hsr_guess ∧ s.hsr_guess ≤ (N : Int) ∧
      ∃ b2, s1 = settle { s with kNumQuestions := s.kNumQuestions - 1,
                                 kNumRungs := (N : Int) - s.hsr_guess,
                                 board_ := b2 } ∧
        b2.length = N ∧
        cellAt b2 s.hsr_guess = some CellState.kNought ∧
        (∀ i : Int, 1 ≤ i → i < s.hsr_guess → cellAt b2 i = some CellState.kCross) ∧
        (∀ i : Int, s.hsr_guess < i → cellAt b2 i = cellAt s.board_ i)) ∨
    (s.current_player_ = 1 ∧ k % 2 = 1 ∧ a = 1 ∧
      1 ≤ s.hsr_guess ∧ s.hsr_guess ≤ (N : Int) ∧
      ∃ b2, s1 = settle { s with board_ := b2,
                                 kNumQuestions := s.kNumQuestions - 1,
                                 kNumRungs := s.hsr_guess,
                                 kNumJars := s.kNumJars - 1 } ∧
        b2.length = N ∧
        (∀ i : Int, s.hsr_guess ≤ i → i ≤ (N : Int) → cellAt b2 i = some CellState.kCross) ∧
        (∀ i : Int, i < s.hsr_guess → cellAt b2 i = cellAt s.board_ i)) := by
  obtain ⟨hlen, hp, _, hg, _⟩ := hinv
  rcases Nat.mod_two_eq_zero_or_one k with hk | hk
  · rw [hk] at hp
    have hp0 : s.current_player_ = 0 := by simpa using hp
    have hc := legal_guesser s a ha hp0
    rw [DoApplyAction_guess_legal N s a hp0 hc, Option.some.injEq] at hd
    exact Or.inl ⟨hp0, hk, hc, hd.symm⟩
  · rw [hk] at hp
    have hp1 : s.current_player_ = 1 := by simpa using hp
    obtain ⟨g1, g2⟩ := cellAt_some_range _ _ _ (hg hk)
    rw [hlen] at g2
    rcases legal_adjudicator s a ha hp1 with h0 | h1
    · obtain ⟨b2, e, c⟩ := EFG_ANDR_spec N s hlen g1 g2
      rw [DoApplyAction_right N s a hp1 (by omega), e, Option.map_some',
        Option.some.injEq] at hd
      exact Or.inr (Or.inl ⟨hp1, hk, h0, g1, g2, b2, hd.symm, c⟩)
    · obtain ⟨b2, e, c⟩ := EFG_ANDL_spec N s hlen g1 g2
      rw [DoApplyAction_left N s a hp1 (by omega), e, Option.map_some',
        Option.some.injEq] at hd
      exact Or.inr (Or.inr ⟨hp1, hk, h1, g1, g2, b2, hd.symm, c⟩)

/-- One legal action in a reachable state keeps the three counters
non-negative. -/
theorem counters_nonneg_step (N : Nat) (q0 : Int) (k : Nat) (s : HSRState) (a : Int)
    (s1 : HSRState) (hinv : ReachInv N q0 k s) (ha : a ∈ LegalActions s)
    (hd : DoApplyAction N s a = some s1)
    (hc : 0 ≤ s.kNumQuestions ∧ 0 ≤ s.kNumRungs ∧ 0 ≤ s.kNumJars) :
    0 ≤ s1.kNumQuestions ∧ 0 ≤ s1.kNumRungs ∧ 0 ≤ s1.kNumJars := by
  obtain ⟨c1, c2, c3⟩ := hc
  have hnt := legal_not_terminal s a ha
  rcases step_cases N q0 k s a s1 hinv ha hd with
    ⟨_, _, _, e⟩ | ⟨_, hk, _, g1, g2, b2, e, _⟩ | ⟨_, hk, _, g1, g2, b2, e, _⟩
  · rw [e, settle_questions, settle_rungs, settle_jars]
    exact ⟨c1, c2, c3⟩
  · obtain ⟨_, _, n3, _⟩ := ReachInv_no_win N q0 k s hinv (by omega) hnt
    rw [e, settle_questions, settle_rungs, settle_jars]
    refine ⟨?_, ?_, c3⟩
    · show 0 ≤ s.kNumQuestions - 1
      omega
    · show 0 ≤ (N : Int) - s.hsr_guess
      omega
  · obtain ⟨_, n2, n3, _⟩ := ReachInv_no_win N q0 k s hinv (by omega) hnt
    rw [e, settle_questions, settle_rungs, settle_jars]
    refine ⟨?_, ?_, ?_⟩
    · show 0 ≤ s.kNumQuestions - 1
      omega
    · show 0 ≤ s.hsr_guess
      omega
    · show 0 ≤ s.kNumJars - 1
      omega

/-- C15 (counters stay non-negative): if the three start counters are
non-negative, then in every state reached from the initial state by legal
actions `remainingQuestions`, `remainingRungs` and `remainingJars` are
`≥ 0`. -/
theorem counters_nonneg (N : Nat) (q0 r0 j0 g0 : Int)
    (hq : 0 ≤ q0) (hr : 0 ≤ r0) (hj : 0 ≤ j0)
    (as : List Int) (s : HSRState)
    (h : play N (initialState N q0 r0 j0 g0) as = some s) :
    0 ≤ s.kNumQuestions ∧ 0 ≤ s.kNumRungs ∧ 0 ≤ s.kNumJars := by
  refine play_induct N q0 r0 j0 g0
    (fun _ t => 0 ≤ t.kNumQuestions ∧ 0 ≤ t.kNumRungs ∧ 0 ≤ t.kNumJars)
    ⟨hq, hr, hj⟩ ?_ as s h
  intro k t a t2 hinv hc ha hap
  obtain ⟨t1, hd, e⟩ := ApplyAction_inv N t a t2 hap
  rw [e]
  exact counters_nonneg_step N q0 k t a t1 hinv ha hd hc

/-- Instance of C15: the legal play 1, 0, 3, 1 on four cells with start
counters 2, 4, 3. -/
theorem counters_nonneg_witness :
    ∃ s, play 4 (initialState 4 2 4 3 0) [1, 0, 3, 1] = some s ∧
      (0 ≤ s.kNumQuestions ∧ 0 ≤ s.kNumRungs ∧ 0 ≤ s.kNumJars) :=
  ⟨_, rfl, counters_nonneg 4 2 4 3 0 (by decide) (by decide) (by decide) [1, 0, 3, 1] _ rfl⟩

/-! ## C16: the observation tensor -/

theorem flat_index_inj (N r c r2 c2 : Nat) (hc : c < N) (hc2 : c2 < N)
    (h : r * N + c = r2 * N + c2) : r = r2 ∧ c = c2 := by
  have e1 : (r * N + c) % N = c := by
    rw [Nat.add_comm, Nat.add_mul_mod_self_right, Nat.mod_eq_of_lt hc]
  have e2 : (r2 * N + c2) % N = c2 := by
    rw [Nat.add_comm, Nat.add_mul_mod_self_right, Nat.mod_eq_of_lt hc2]
  have hcc : c = c2 := by rw [← e1, ← e2, h]
  subst hcc
  have hN : 0 < N := by omega
  have hm : r * N = r2 * N := by omega
  exact ⟨Nat.eq_of_mul_eq_mul_right hN hm, rfl⟩

theorem flat_index_lt (N r c : Nat) (hr : r < 3) (hc : c < N) : r * N + c < 3 * N := by
  have h : r * N ≤ 2 * N := Nat.mul_le_mul_right N (by omega)
  omega

theorem sum_set_one : ∀ (l : List Int) (i : Nat), l[i]? = some 0 →
    (l.set i 1).sum = l.sum + 1 := by
  intro l
  induction l with
  | nil =>
    intro i h
    simp at h
  | cons x rest ih =>
    intro i h
    cases i with
    | zero =>
      simp only [List.getElem?_cons_zero, Option.some.injEq] at h
      simp only [List.set_cons_zero, List.sum_cons, h]
      omega
    | succ j =>
      simp only [List.getElem?_cons_succ] at h
      simp only [List.set_cons_succ, List.sum_cons, ih j h]
      omega

theorem fillTensor_spec (N : Nat) (code : CellState → Nat)
    (hcode : ∀ c, code c < 3) :
    ∀ (rest : List CellState) (cell : Nat) (buf : List Int),
      cell + rest.length = N → buf.length = 3 * N →
      (∀ r c, r < 3 → cell ≤ c → c < N → buf[r * N + c]? = some 0) →
      ∃ out, fillTensor N code cell rest buf = some out ∧ out.length = 3 * N ∧
        (∀ r c, r < 3 → c < cell → out[r * N + c]? = buf[r * N + c]?) ∧
        (∀ r c, r < 3 → cell ≤ c → c < N →
          out[r * N + c]? = some (if (rest[c - cell]?).map code = some r then 1 else 0)) ∧
        out.sum = buf.sum + (rest.length : Int) := by
  intro rest
  induction rest with
  | nil =>
    intro cell buf hN hlen hz
    refine ⟨buf, rfl, hlen, fun _ _ _ _ => rfl, ?_, ?_⟩
    · intro r c _ h1 h2
      simp only [List.length_nil] at hN
      omega
    · simp
  | cons c0 rest ih =>
    intro cell buf hN hlen hz
    simp only [List.length_cons] at hN
    have hcell : cell < N := by omega
    have hidx : code c0 * N + cell < buf.length := by
      rw [hlen]
      exact flat_index_lt N _ _ (hcode c0) hcell
    have hset : tensorSet N buf (code c0) cell 1 = some (buf.set (code c0 * N + cell) 1) := by
      unfold tensorSet
      rw [if_pos hidx]
    have hne : ∀ r c, c < N → c ≠ cell → code c0 * N + cell ≠ r * N + c := by
      intro r c hc hcc heq
      exact hcc (flat_index_inj N _ _ _ _ hcell hc heq).2.symm
    obtain ⟨out, o1, o2, o3, o4, o5⟩ := ih (cell + 1) (buf.set (code c0 * N + cell) 1)
      (by omega) (by simpa using hlen)
      (by
        intro r c hr h1 h2
        rw [List.getElem?_set_ne (hne r c h2 (by omega))]
        exact hz r c hr (by omega) h2)
    refine ⟨out, ?_, o2, ?_, ?_, ?_⟩
    · simp only [fillTensor, hset]
      exact o1
    · intro r c hr hc
      rw [o3 r c hr (by omega), List.getElem?_set_ne (hne r c (by omega) (by omega))]
    · intro r c hr h1 h2
      by_cases hcc : c = cell
      · subst hcc
        rw [o3 r c hr (by omega), Nat.sub_self]
        simp only [List.getElem?_cons_zero, Option.map_some', Option.some.injEq]
        by_cases hrc : code c0 = r
        · subst hrc
          rw [if_pos rfl]
          exact List.getElem?_set_self hidx
        · rw [if_neg hrc, List.getElem?_set_ne]
          · exact hz r c hr (le_refl c) h2
          · intro heq
            exact hrc (flat_index_inj N _ _ _ _ hcell hcell heq).1
      · rw [o4 r c hr (by omega) h2]
        have e : c - cell = (c - (cell + 1)) + 1 := by omega
        rw [e, List.getElem?_cons_succ]
    · rw [o5, sum_set_one buf _ (hz (code c0) cell (hcode c0) (le_refl cell) hcell)]
      simp only [List.length_cons]
      push_cast
      omega

/-- C16 (one-hot observation tensor): for every board of `boardSize` cells,
either player id and codes below 3, the call succeeds and writes a buffer of
length `3 * boardSize`; read as a `(3, boardSize)` row-major tensor, the entry
at `(r, c)` is 1 when cell `c` holds the state with code `r` and 0 otherwise,
so each column holds exactly one 1, and the buffer sums to `boardSize`. -/
theorem observation_tensor_one_hot (N : Nat) (code : CellState → Nat) (s : HSRState)
    (player : Int) (hlen : s.board_.length = N) (hcode : ∀ c, code c < 3)
    (hp : player = 0 ∨ player = 1) :
    ∃ buf, ObservationTensor N code s player = some buf ∧ buf.length = 3 * N ∧
      (∀ r c, r < 3 → c < N →
        buf[r * N + c]? = some (if (s.board_[c]?).map code = some r then 1 else 0)) ∧
      (∀ c, c < N → ∃ r, r < 3 ∧ buf[r * N + c]? = some 1 ∧
        ∀ r2, r2 < 3 → buf[r2 * N + c]? = some 1 → r2 = r) ∧
      buf.sum = (N : Int) := by
  have hpl : 0 ≤ player ∧ player < 2 := by omega
  obtain ⟨out, o1, o2, _, o4, o5⟩ := fillTensor_spec N code hcode s.board_ 0
    (List.replicate (3 * N) 0) (by omega) (by simp)
    (by
      intro r c hr _ hc
      rw [List.getElem?_replicate, if_pos (flat_index_lt N r c hr hc)])
  have hcell : ∀ r c, r < 3 → c < N →
      out[r * N + c]? = some (if (s.board_[c]?).map code = some r then 1 else 0) := by
    intro r c hr hc
    rw [o4 r c hr (Nat.zero_le c) hc, Nat.sub_zero]
  refine ⟨out, ?_, o2, hcell, ?_, ?_⟩
  · unfold ObservationTensor kCellStates
    rw [if_pos hpl]
    exact o1
  · intro c hc
    have hget : s.board_[c]? = some (s.board_[c]) := List.getElem?_eq_getElem (by omega)
    refine ⟨code s.board_[c], hcode _, ?_, ?_⟩
    · rw [hcell _ c (hcode _) hc, hget]
      simp
    · intro r2 hr2 h1
      rw [hcell r2 c hr2 hc, hget] at h1
      by_contra hne
      simp only [Option.map_some', Option.some.injEq] at h1
      rw [if_neg (fun h => hne h.symm)] at h1
      exact absurd h1 (by decide)
  · rw [o5, hlen]
    simp

/-- Instance of C16: the five-cell sample board with the codes 0, 1, 2. -/
theorem observation_tensor_one_hot_witness :
    ∃ buf, ObservationTensor 5 cellCode sampleBoardState 0 = some buf ∧ buf.length = 3 * 5 ∧
      (∀ r c, r < 3 → c < 5 →
        buf[r * 5 + c]? =
          some (if (sampleBoardState.board_[c]?).map cellCode = some r then 1 else 0)) ∧
      (∀ c, c < 5 → ∃ r, r < 3 ∧ buf[r * 5 + c]? = some 1 ∧
        ∀ r2, r2 < 3 → buf[r2 * 5 + c]? = some 1 → r2 = r) ∧
      buf.sum = ((5 : Nat) : Int) :=
  observation_tensor_one_hot 5 cellCode sampleBoardState 0 (by decide)
    (by intro c; cases c <;> decide) (Or.inl rfl)

/-! ## C17: states without a legal action -/

/-- Induction over the legal plays from the initial state, with the actions
played so far at hand. -/
theorem play_induct_actions (N : Nat) (q0 r0 j0 g0 : Int) (P : List Int → HSRState → Prop)
    (h0 : P [] (initialState N q0 r0 j0 g0))
    (hstep : ∀ (as : List Int) (s : HSRState) (a : Int) (s2 : HSRState),
      ReachInv N q0 as.length s → P as s → a ∈ LegalActions s →
      ApplyAction N s a = some s2 → P (as ++ [a]) s2)
    (as : List Int) :
    ∀ s, play N (initialState N q0 r0 j0 g0) as = some s → P as s := by
  induction as using List.reverseRecOn with
  | nil =>
    intro s h
    simp only [play, Option.some.injEq] at h
    rw [← h]
    exact h0
  | append_singleton as a ih =>
    intro s h
    obtain ⟨s1, h1, hl, ha⟩ := play_snoc N _ as a s h
    exact hstep as s1 a s (ReachInv_play N q0 r0 j0 g0 as s1 h1) (ih s1 h1) hl ha

theorem confirmsAre_snoc (b : Int) (as : List Int) (a : Int)
    (h : confirmsAre b (as ++ [a])) :
    confirmsAre b as ∧ (as.length % 2 = 1 → a = b) := by
  constructor
  · intro j hj hodd
    have := h j (by rw [List.length_append, List.length_singleton]; omega) hodd
    rwa [List.getElem?_append_left hj] at this
  · intro hodd
    have := h as.length (by rw [List.length_append, List.length_singleton]; omega) hodd
    rw [List.getElem?_append_right (le_refl _), Nat.sub_self] at this
    simpa using this

theorem cellAt_replicate (N : Nat) (i : Int) (h1 : 1 ≤ i) (h2 : i ≤ (N : Int)) :
    cellAt (List.replicate N CellState.kEmpty) i = some CellState.kEmpty := by
  obtain ⟨j, hj⟩ : ∃ j : Nat, i = (j : Int) + 1 := ⟨(i - 1).toNat, by omega⟩
  rw [hj, cellAt_succ, List.getElem?_replicate, if_pos (by omega)]

/-- While every confirm is a right confirm, the marked cells are a prefix
`1 .. lo` of the board, the cells above `lo` are Empty, and after a confirm
the rung counter is `boardSize - lo`. -/
theorem right_only_shape (N : Nat) (q0 r0 j0 g0 : Int) (as : List Int) (s : HSRState)
    (h : play N (initialState N q0 r0 j0 g0) as = some s) (hr : confirmsAre 0 as) :
    ∃ lo : Int, 0 ≤ lo ∧ lo ≤ (N : Int) ∧
      (∀ i : Int, 1 ≤ i → i ≤ lo → cellAt s.board_ i ≠ some CellState.kEmpty) ∧
      (∀ i : Int, lo < i → i ≤ (N : Int) → cellAt s.board_ i = some CellState.kEmpty) ∧
      (as.length % 2 = 0 →
        (as.length = 0 ∧ lo = 0) ∨ (1 ≤ as.length ∧ s.kNumRungs = (N : Int) - lo)) := by
  refine play_induct_actions N q0 r0 j0 g0
    (fun bs t => confirmsAre 0 bs →
      ∃ lo : Int, 0 ≤ lo ∧ lo ≤ (N : Int) ∧
        (∀ i : Int, 1 ≤ i → i ≤ lo → cellAt t.board_ i ≠ some CellState.kEmpty) ∧
        (∀ i : Int, lo < i → i ≤ (N : Int) → cellAt t.board_ i = some CellState.kEmpty) ∧
        (bs.length % 2 = 0 →
          (bs.length = 0 ∧ lo = 0) ∨ (1 ≤ bs.length ∧ t.kNumRungs = (N : Int) - lo)))
    ?_ ?_ as s h hr
  · intro _
    refine ⟨0, le_refl 0, by omega, ?_, ?_, ?_⟩
    · intro i h1 h2
      omega
    · intro i h1 h2
      exact cellAt_replicate N i (by omega) h2
    · intro _
      exact Or.inl ⟨rfl, rfl⟩
  · intro bs t a t2 hinv ih ha hap hc
    obtain ⟨hc1, hc2⟩ := confirmsAre_snoc 0 bs a hc
    obtain ⟨lo, l1, l2, l3, l4, _⟩ := ih hc1
    obtain ⟨t1, hd, e⟩ := ApplyAction_inv N t a t2 hap
    rw [e, List.length_append, List.length_singleton]
    rcases step_cases N q0 bs.length t a t1 hinv ha hd with
      ⟨_, hk, _, e1⟩ | ⟨_, hk, _, g1, g2, b2, e1, _, c2, c3, c4⟩ | ⟨_, hk, ha1, _⟩
    · refine ⟨lo, l1, l2, ?_, ?_, ?_⟩
      · intro i h1 h2
        show cellAt t1.board_ i ≠ _
        rw [e1, settle_board]
        exact l3 i h1 h2
      · intro i h1 h2
        show cellAt t1.board_ i = _
        rw [e1, settle_board]
        exact l4 i h1 h2
      · intro hodd
        omega
    · have hge : cellAt t.board_ t.hsr_guess = some CellState.kEmpty := hinv.2.2.2.1 hk
      have hgt : lo < t.hsr_guess := by
        by_contra hle
        exact l3 t.hsr_guess g1 (by omega) hge
      refine ⟨t.hsr_guess, by omega, g2, ?_, ?_, ?_⟩
      · intro i h1 h2
        show cellAt t1.board_ i ≠ _
        rw [e1, settle_board]
        show cellAt b2 i ≠ _
        rcases lt_or_eq_of_le h2 with hlt | heq
        · rw [c3 i h1 hlt]
          decide
        · rw [heq, c2]
          decide
      · intro i h1 h2
        show cellAt t1.board_ i = _
        rw [e1, settle_board]
        show cellAt b2 i = _
        rw [c4 i h1]
        exact l4 i (by omega) h2
      · intro _
        right
        refine ⟨by omega, ?_⟩
        show t1.kNumRungs = _
        rw [e1, settle_rungs]
    · have := hc2 hk
      omega

/-- While every confirm is a left confirm, the marked cells are a suffix
`hi .. boardSize` of the board, the cells below `hi` are Empty, and after a
confirm the rung counter is `hi`. -/
theorem left_only_shape (N : Nat) (q0 r0 j0 g0 : Int) (as : List Int) (s : HSRState)
    (h : play N (initialState N q0 r0 j0 g0) as = some s) (hl : confirmsAre 1 as) :
    ∃ hi : Int, 1 ≤ hi ∧ hi ≤ (N : Int) + 1 ∧
      (∀ i : Int, 1 ≤ i → i < hi → cellAt s.board_ i = some CellState.kEmpty) ∧
      (∀ i : Int, hi ≤ i → i ≤ (N : Int) → cellAt s.board_ i ≠ some CellState.kEmpty) ∧
      (as.length % 2 = 0 →
        (as.length = 0 ∧ hi = (N : Int) + 1) ∨ (1 ≤ as.length ∧ s.kNumRungs = hi)) := by
  refine play_induct_actions N q0 r0 j0 g0
    (fun bs t => confirmsAre 1 bs →
      ∃ hi : Int, 1 ≤ hi ∧ hi ≤ (N : Int) + 1 ∧
        (∀ i : Int, 1 ≤ i → i < hi → cellAt t.board_ i = some CellState.kEmpty) ∧
        (∀ i : Int, hi ≤ i → i ≤ (N : Int) → cellAt t.board_ i ≠ some CellState.kEmpty) ∧
        (bs.length % 2 = 0 →
          (bs.length = 0 ∧ hi = (N : Int) + 1) ∨ (1 ≤ bs.length ∧ t.kNumRungs = hi)))
    ?_ ?_ as s h hl
  · intro _
    refine ⟨(N : Int) + 1, by omega, le_refl _, ?_, ?_, ?_⟩
    · intro i h1 h2
      exact cellAt_replicate N i h1 (by omega)
    · intro i h1 h2
      omega
    · intro _
      exact Or.inl ⟨rfl, rfl⟩
  · intro bs t a t2 hinv ih ha hap hc
    obtain ⟨hc1, hc2⟩ := confirmsAre_snoc 1 bs a hc
    obtain ⟨hi, l1, l2, l3, l4, _⟩ := ih hc1
    obtain ⟨t1, hd, e⟩ := ApplyAction_inv N t a t2 hap
    rw [e, List.length_append, List.length_singleton]
    rcases step_cases N q0 bs.length t a t1 hinv ha hd with
      ⟨_, hk, _, e1⟩ | ⟨_, hk, ha0, _⟩ | ⟨_, hk, _, g1, g2, b2, e1, _, c2, c3⟩
    · refine ⟨hi, l1, l2, ?_, ?_, ?_⟩
      · intro i h1 h2
        show cellAt t1.board_ i = _
        rw [e1, settle_board]
        exact l3 i h1 h2
      · intro i h1 h2
        show cellAt t1.board_ i ≠ _
        rw [e1, settle_board]
        exact l4 i h1 h2
      · intro hodd
        omega
    · have := hc2 hk
      omega
    · have hge : cellAt t.board_ t.hsr_guess = some CellState.kEmpty := hinv.2.2.2.1 hk
      have hlt : t.hsr_guess < hi := by
        by_contra hle
        exact l4 t.hsr_guess (by omega) g2 hge
      refine ⟨t.hsr_guess, g1, by omega, ?_, ?_, ?_⟩
      · intro i h1 h2
        show cellAt t1.board_ i = _
        rw [e1, settle_board]
        show cellAt b2 i = _
        rw [c3 i h2]
        exact l3 i h1 (by omega)
      · intro i h1 h2
        show cellAt t1.board_ i ≠ _
        rw [e1, settle_board]
        show cellAt b2 i ≠ _
        rw [c2 i h1 h2]
        decide
      · intro _
        right
        refine ⟨by omega, ?_⟩
        show t1.kNumRungs = _
        rw [e1, settle_rungs]

theorem LegalActions_ne_nil_of_empty_cell (s : HSRState) (i : Int)
    (hnt : IsTerminal s = false) (hp : s.current_player_ = 0)
    (hc : cellAt s.board_ i = some CellState.kEmpty) : LegalActions s ≠ [] := by
  intro hnil
  have hm := mem_LegalActions_guesser s i hnt hp hc
  rw [hnil] at hm
  exact absurd hm (List.not_mem_nil i)

/-- C17, the code at two failing inputs.  On a four-cell board with start
counters 5, 4, 5 the legal plays 1, 0, 2, 1 (right confirm on 1, then left
confirm on 2) and 3, 1, 2, 0 (left confirm on 3, then right confirm on 2)
each reach a state with the Guesser to move in which every cell is marked, so
there is no legal action, while the state is not terminal: the last confirm
has set `remainingRungs` to 2 from the number of the guessed cell alone, and
the jar and question counters are not 0. -/
theorem stuck_state_after_mixed_confirms :
    (play 4 (initialState 4 5 4 5 0) [1, 0, 2, 1]).map
        (fun s => (IsTerminal s, LegalActions s, s.current_player_)) = some (false, [], 0) ∧
    (play 4 (initialState 4 5 4 5 0) [1, 0, 2, 1]).map (fun s => s.board_)
      = some [CellState.kNought, CellState.kCross, CellState.kCross, CellState.kCross] ∧
    (play 4 (initialState 4 5 4 5 0) [1, 0, 2, 1]).map
        (fun s => (s.kNumRungs, s.kNumJars, s.kNumQuestions)) = some (2, 4, 3) ∧
    (play 4 (initialState 4 5 4 5 0) [3, 1, 2, 0]).map
        (fun s => (IsTerminal s, LegalActions s, s.current_player_)) = some (false, [], 0) ∧
    (play 4 (initialState 4 5 4 5 0) [3, 1, 2, 0]).map (fun s => s.board_)
      = some [CellState.kCross, CellState.kNought, CellState.kCross, CellState.kCross] ∧
    (play 4 (initialState 4 5 4 5 0) [3, 1, 2, 0]).map
        (fun s => (s.kNumRungs, s.kNumJars, s.kNumQuestions)) = some (2, 4, 3) := by
  decide

/-- Plays on one branch do not get stuck: in a non-terminal state reached
from the initial state of a board with at least one cell by legal actions, the
Adjudicator to move always has the legal actions 0 and 1; with the Guesser to
move the list of legal actions is empty exactly when no cell is Empty, and it
is not empty as long as every confirm played so far chose the same branch
(all right or all left), because the rung counter then reaches 1 or 0 before
the board is full. -/
theorem same_branch_not_stuck (N : Nat) (q0 r0 j0 g0 : Int) (hN : 1 ≤ N)
    (as : List Int) (s : HSRState)
    (h : play N (initialState N q0 r0 j0 g0) as = some s)
    (hnt : IsTerminal s = false) :
    (s.current_player_ = 0 ∨ s.current_player_ = 1) ∧
    (s.current_player_ = 1 → LegalActions s = [0, 1]) ∧
    (s.current_player_ = 0 →
      (LegalActions s = [] ↔ ∀ i : Int, cellAt s.board_ i ≠ some CellState.kEmpty)) ∧
    (confirmsAre 0 as ∨ confirmsAre 1 as → LegalActions s ≠ []) := by
  have hinv := ReachInv_play N q0 r0 j0 g0 as s h
  have hpl := hinv.2.1
  refine ⟨?_, ?_, ?_, ?_⟩
  · rcases Nat.mod_two_eq_zero_or_one as.length with hk | hk
    · rw [hk] at hpl
      exact Or.inl (by simpa using hpl)
    · rw [hk] at hpl
      exact Or.inr (by simpa using hpl)
  · intro hp
    unfold LegalActions
    rw [hnt]
    simp only [Bool.false_eq_true, if_false, if_pos hp]
  · intro hp
    constructor
    · intro hnil i hc
      exact LegalActions_ne_nil_of_empty_cell s i hnt hp hc hnil
    · intro hall
      cases hla : LegalActions s with
      | nil => rfl
      | cons a rest =>
        have hm : a ∈ LegalActions s := by
          rw [hla]
          exact List.mem_cons_self a rest
        exact absurd (legal_guesser s a hm hp) (hall a)
  · intro hsame
    rcases Nat.mod_two_eq_zero_or_one as.length with hk | hk
    · rw [hk] at hpl
      have hp : s.current_player_ = 0 := by simpa using hpl
      rcases hsame with hr | hl
      · obtain ⟨lo, l1, l2, _, l4, l5⟩ := right_only_shape N q0 r0 j0 g0 as s h hr
        rcases l5 hk with ⟨_, hlo⟩ | ⟨hk1, hrung⟩
        · exact LegalActions_ne_nil_of_empty_cell s 1 hnt hp (l4 1 (by omega) (by omega))
        · obtain ⟨n1, _, _, n4⟩ := ReachInv_no_win N q0 as.length s hinv hk1 hnt
          exact LegalActions_ne_nil_of_empty_cell s (lo + 1) hnt hp
            (l4 (lo + 1) (by omega) (by omega))
      · obtain ⟨hi, l1, l2, l3, _, l5⟩ := left_only_shape N q0 r0 j0 g0 as s h hl
        rcases l5 hk with ⟨_, hhi⟩ | ⟨hk1, hrung⟩
        · exact LegalActions_ne_nil_of_empty_cell s 1 hnt hp (l3 1 (le_refl 1) (by omega))
        · obtain ⟨n1, _, _, n4⟩ := ReachInv_no_win N q0 as.length s hinv hk1 hnt
          exact LegalActions_ne_nil_of_empty_cell s 1 hnt hp (l3 1 (le_refl 1) (by omega))
    · rw [hk] at hpl
      have hp : s.current_player_ = 1 := by simpa using hpl
      unfold LegalActions
      rw [hnt]
      simp only [Bool.false_eq_true, if_false, if_pos hp]
      decide

/-- Instance on one branch: the state after the legal play 1, 0, 3, 0 of two
right confirms on five cells. -/
theorem same_branch_not_stuck_example :
    confirmsAre 0 [1, 0, 3, 0] ∧
    ∃ s, play 5 (initialState 5 5 5 5 0) [1, 0, 3, 0] = some s ∧ IsTerminal s = false ∧
      ((s.current_player_ = 0 ∨ s.current_player_ = 1) ∧
      (s.current_player_ = 1 → LegalActions s = [0, 1]) ∧
      (s.current_player_ = 0 →
        (LegalActions s = [] ↔ ∀ i : Int, cellAt s.board_ i ≠ some CellState.kEmpty)) ∧
      (confirmsAre 0 [1, 0, 3, 0] ∨ confirmsAre 1 [1, 0, 3, 0] → LegalActions s ≠ [])) :=
  ⟨by unfold confirmsAre; decide,
   _, rfl, by decide, same_branch_not_stuck 5 5 5 5 0 (by decide) [1, 0, 3, 0] _ rfl (by decide)⟩

/-! ## C18: who ends the game -/

/-- The win evaluation after a move of player 1 in a non-terminal state: the
state stays non-terminal exactly when no win predicate holds, and a settled
outcome is player 0 for `remainingRungs = 1` and player 1 otherwise. -/
theorem settle_adjudicator (s2 : HSRState) (hp : s2.current_player_ = 1)
    (hnt : IsTerminal s2 = false) :
    (IsTerminal (settle s2) = false →
      s2.kNumRungs ≠ 1 ∧ s2.kNumJars ≠ 0 ∧ s2.kNumQuestions ≠ 0 ∧ s2.kNumRungs ≠ 0) ∧
    (IsTerminal (settle s2) = true →
      (s2.kNumRungs = 1 → (settle s2).outcome_ = 0) ∧
      (s2.kNumRungs ≠ 1 → (settle s2).outcome_ = 1)) := by
  by_cases h1 : s2.kNumRungs = 1
  · have ho : (settle s2).outcome_ = 0 := by
      rw [settle_outcome_pwin s2 h1, hp]
      rfl
    constructor
    · intro hf
      unfold IsTerminal at hf
      rw [ho] at hf
      exact absurd hf (by decide)
    · intro _
      exact ⟨fun _ => ho, fun hne => absurd h1 hne⟩
  · by_cases hw : s2.kNumJars = 0 ∨ s2.kNumQuestions = 0 ∨ s2.kNumRungs = 0
    · have ho : (settle s2).outcome_ = 1 := by
        rw [settle_outcome_owin s2 h1 hw, hp]
      constructor
      · intro hf
        unfold IsTerminal at hf
        rw [ho] at hf
        exact absurd hf (by decide)
      · intro _
        exact ⟨fun he => absurd he h1, fun _ => ho⟩
    · have hj : s2.kNumJars ≠ 0 := fun h => hw (Or.inl h)
      have hq : s2.kNumQuestions ≠ 0 := fun h => hw (Or.inr (Or.inl h))
      have hr : s2.kNumRungs ≠ 0 := fun h => hw (Or.inr (Or.inr h))
      have ho : (settle s2).outcome_ = s2.outcome_ := settle_outcome_neither s2 h1 hj hq hr
      constructor
      · intro _
        exact ⟨h1, hj, hq, hr⟩
      · intro ht
        unfold IsTerminal at ht hnt
        rw [ho, hnt] at ht
        exact absurd ht (by decide)

/-- The invariant behind C18, kept by every legal action. -/
theorem outcome_inv_step (N : Nat) (q0 : Int) (k : Nat) (s : HSRState) (a : Int)
    (s1 : HSRState) (hinv : ReachInv N q0 k s) (ha : a ∈ LegalActions s)
    (hd : DoApplyAction N s a = some s1)
    (hno : s.kNumRungs ≠ 1 ∧ s.kNumJars ≠ 0 ∧ s.kNumQuestions ≠ 0 ∧ s.kNumRungs ≠ 0) :
    (s.current_player_ = 0 → s1.outcome_ = s.outcome_ ∧ IsTerminal s1 = false) ∧
    (IsTerminal s1 = false →
      s1.kNumRungs ≠ 1 ∧ s1.kNumJars ≠ 0 ∧ s1.kNumQuestions ≠ 0 ∧ s1.kNumRungs ≠ 0) ∧
    (IsTerminal s1 = true →
      (s1.kNumRungs = 1 → s1.outcome_ = 0) ∧ (s1.kNumRungs ≠ 1 → s1.outcome_ = 1)) := by
  have hnt := legal_not_terminal s a ha
  obtain ⟨n1, n2, n3, n4⟩ := hno
  have fin : ∀ s2 : HSRState, s1 = settle s2 → s2.current_player_ = 1 →
      IsTerminal s2 = false →
      (IsTerminal s1 = false →
        s1.kNumRungs ≠ 1 ∧ s1.kNumJars ≠ 0 ∧ s1.kNumQuestions ≠ 0 ∧ s1.kNumRungs ≠ 0) ∧
      (IsTerminal s1 = true →
        (s1.kNumRungs = 1 → s1.outcome_ = 0) ∧ (s1.kNumRungs ≠ 1 → s1.outcome_ = 1)) := by
    intro s2 e2 hp2 hnt2
    rw [e2, settle_rungs, settle_jars, settle_questions]
    exact settle_adjudicator s2 hp2 hnt2
  rcases step_cases N q0 k s a s1 hinv ha hd with
    ⟨hp0, _, _, e⟩ | ⟨hp1, _, _, _, _, b2, e, _⟩ | ⟨hp1, _, _, _, _, b2, e, _⟩
  · have ho : s1.outcome_ = s.outcome_ := by
      rw [e, settle_outcome_neither (s.Exists a) n1 n2 n3 n4]
      rfl
    have hnt1 : IsTerminal s1 = false := by
      unfold IsTerminal at hnt ⊢
      rw [ho]
      exact hnt
    refine ⟨fun _ => ⟨ho, hnt1⟩, ?_, ?_⟩
    · intro _
      rw [e, settle_rungs, settle_jars, settle_questions]
      exact ⟨n1, n2, n3, n4⟩
    · intro ht
      rw [hnt1] at ht
      exact absurd ht (by simp)
  · exact ⟨fun hp0 => by omega, fin _ e hp1 hnt⟩
  · exact ⟨fun hp0 => by omega, fin _ e hp1 hnt⟩

/-- In every state reached from an initial state whose counters satisfy no
win predicate: a non-terminal state satisfies no win predicate, and a
terminal state has outcome 0 for `remainingRungs = 1` and outcome 1
otherwise. -/
theorem outcome_inv (N : Nat) (q0 r0 j0 g0 : Int)
    (hr1 : r0 ≠ 1) (hr0 : r0 ≠ 0) (hj : j0 ≠ 0) (hq : q0 ≠ 0)
    (as : List Int) (s : HSRState)
    (h : play N (initialState N q0 r0 j0 g0) as = some s) :
    (IsTerminal s = false →
      s.kNumRungs ≠ 1 ∧ s.kNumJars ≠ 0 ∧ s.kNumQuestions ≠ 0 ∧ s.kNumRungs ≠ 0) ∧
    (IsTerminal s = true →
      (s.kNumRungs = 1 → s.outcome_ = 0) ∧ (s.kNumRungs ≠ 1 → s.outcome_ = 1)) := by
  refine play_induct N q0 r0 j0 g0
    (fun _ t =>
      (IsTerminal t = false →
        t.kNumRungs ≠ 1 ∧ t.kNumJars ≠ 0 ∧ t.kNumQuestions ≠ 0 ∧ t.kNumRungs ≠ 0) ∧
      (IsTerminal t = true →
        (t.kNumRungs = 1 → t.outcome_ = 0) ∧ (t.kNumRungs ≠ 1 → t.outcome_ = 1)))
    ?_ ?_ as s h
  · constructor
    · intro _
      exact ⟨hr1, hj, hq, hr0⟩
    · intro ht
      exact absurd ht (by simp [IsTerminal, initialState])
  · intro k t a t2 hinv ih ha hap
    obtain ⟨t1, hd, e⟩ := ApplyAction_inv N t a t2 hap
    obtain ⟨_, p2, p3⟩ :=
      outcome_inv_step N q0 k t a t1 hinv ha hd (ih.1 (legal_not_terminal t a ha))
    rw [e]
    exact ⟨p2, p3⟩

/-- C18 (only the Adjudicator's move ends the game): if the start counters
satisfy neither win predicate, then in every reachable non-terminal state
neither predicate holds, so a legal Guesser move leaves the outcome
undetermined; and in every reachable terminal state the outcome is player 0
exactly when `remainingRungs = 1` and player 1 otherwise. -/
theorem adjudicator_ends_game (N : Nat) (q0 r0 j0 g0 : Int)
    (hr1 : r0 ≠ 1) (hr0 : r0 ≠ 0) (hj : j0 ≠ 0) (hq : q0 ≠ 0)
    (as : List Int) (s : HSRState)
    (h : play N (initialState N q0 r0 j0 g0) as = some s) :
    (IsTerminal s = false →
      s.kNumRungs ≠ 1 ∧ s.kNumJars ≠ 0 ∧ s.kNumQuestions ≠ 0 ∧ s.kNumRungs ≠ 0) ∧
    (s.current_player_ = 0 → ∀ a : Int, a ∈ LegalActions s →
      ∃ s1, ApplyAction N s a = some s1 ∧ s1.outcome_ = kInvalidPlayer ∧
        IsTerminal s1 = false) ∧
    (IsTerminal s = true →
      (s.outcome_ = 0 ↔ s.kNumRungs = 1) ∧ (s.outcome_ = 1 ↔ s.kNumRungs ≠ 1)) := by
  obtain ⟨p1, p2⟩ := outcome_inv N q0 r0 j0 g0 hr1 hr0 hj hq as s h
  have hinv := ReachInv_play N q0 r0 j0 g0 as s h
  refine ⟨p1, ?_, ?_⟩
  · intro hp a ha
    have hnt := legal_not_terminal s a ha
    obtain ⟨s1, hd, hap⟩ := legal_applies N q0 as.length s a hinv ha
    obtain ⟨q1, _, _⟩ := outcome_inv_step N q0 as.length s a s1 hinv ha hd (p1 hnt)
    obtain ⟨ho, hnt1⟩ := q1 hp
    refine ⟨_, hap, ?_, hnt1⟩
    show s1.outcome_ = kInvalidPlayer
    rw [ho]
    unfold IsTerminal at hnt
    simpa using hnt
  · intro ht
    obtain ⟨t1, t2⟩ := p2 ht
    constructor
    · constructor
      · intro ho
        by_contra hne
        rw [t2 hne] at ho
        exact absurd ho (by decide)
      · exact t1
    · constructor
      · intro ho hr
        rw [t1 hr] at ho
        exact absurd ho (by decide)
      · exact t2

/-- Instance of C18: the terminal state after the legal play 3, 0 on four
cells, where `remainingRungs = 1` and the outcome is player 0. -/
theorem adjudicator_ends_game_witness :
    ∃ s, play 4 (initialState 4 5 4 5 0) [3, 0] = some s ∧ IsTerminal s = true ∧
      s.kNumRungs = 1 ∧ s.outcome_ = 0 ∧
      ((IsTerminal s = false →
        s.kNumRungs ≠ 1 ∧ s.kNumJars ≠ 0 ∧ s.kNumQuestions ≠ 0 ∧ s.kNumRungs ≠ 0) ∧
      (s.current_player_ = 0 → ∀ a : Int, a ∈ LegalActions s →
        ∃ s1, ApplyAction 4 s a = some s1 ∧ s1.outcome_ = kInvalidPlayer ∧
          IsTerminal s1 = false) ∧
      (IsTerminal s = true →
        (s.outcome_ = 0 ↔ s.kNumRungs = 1) ∧ (s.outcome_ = 1 ↔ s.kNumRungs ≠ 1))) :=
  ⟨_, rfl, by decide, by decide, by decide,
    adjudicator_ends_game 4 5 4 5 0 (by decide) (by decide) (by decide) (by decide)
      [3, 0] _ rfl⟩

/-! ## C19: indices used by `ApplyAction` -/

/-- C19 (index safety of ApplyAction): along every legal play from the
initial state, when the Adjudicator is to move the pending guess `g` satisfies
`1 ≤ g ≤ boardSize` and names a cell that is Empty, so the indices `g-1`,
`0 .. g-2` and `g-1 .. boardSize-1` used by the confirm branches lie within
`0 .. boardSize-1`; a legal Guesser action `move` has `move-1` within
`0 .. boardSize-1`; and every legal action is applied without an access
outside the board. -/
theorem apply_action_index_safety (N : Nat) (q0 r0 j0 g0 : Int)
    (as : List Int) (s : HSRState)
    (h : play N (initialState N q0 r0 j0 g0) as = some s) :
    (s.current_player_ = 1 →
      1 ≤ s.hsr_guess ∧ s.hsr_guess ≤ (N : Int) ∧
      cellAt s.board_ s.hsr_guess = some CellState.kEmpty ∧
      ∀ j : Int, (j = s.hsr_guess - 1 ∨ (0 ≤ j ∧ j ≤ s.hsr_guess - 2) ∨
          (s.hsr_guess - 1 ≤ j ∧ j ≤ (N : Int) - 1)) →
        0 ≤ j ∧ j ≤ (N : Int) - 1) ∧
    (∀ a : Int, a ∈ LegalActions s →
      (s.current_player_ = 0 → 0 ≤ a - 1 ∧ a - 1 ≤ (N : Int) - 1) ∧
      ∃ s1, DoApplyAction N s a = some s1 ∧ s1.board_.length = N) := by
  have hinv := ReachInv_play N q0 r0 j0 g0 as s h
  obtain ⟨hlen, hp, _, hg, _⟩ := hinv
  constructor
  · intro hp1
    have hk : as.length % 2 = 1 := by
      rcases Nat.mod_two_eq_zero_or_one as.length with hk | hk
      · rw [hk, hp1] at hp
        exact absurd hp (by decide)
      · exact hk
    have hc := hg hk
    obtain ⟨g1, g2⟩ := cellAt_some_range _ _ _ hc
    rw [hlen] at g2
    refine ⟨g1, g2, hc, ?_⟩
    intro j hj
    omega
  · intro a ha
    constructor
    · intro hp0
      obtain ⟨m1, m2⟩ := cellAt_some_range _ _ _ (legal_guesser s a ha hp0)
      rw [hlen] at m2
      omega
    · obtain ⟨s1, hd, hinv1, _⟩ :=
        ReachInv_step N q0 as.length s a (ReachInv_play N q0 r0 j0 g0 as s h) ha
      exact ⟨s1, hd, hinv1.1⟩

/-- Instance of C19: the state after the legal play 1, 0, 3 on five cells,
with the guess 3 pending. -/
theorem apply_action_index_safety_witness :
    ∃ s, play 5 (initialState 5 5 5 5 0) [1, 0, 3] = some s ∧
      ((s.current_player_ = 1 →
        1 ≤ s.hsr_guess ∧ s.hsr_guess ≤ ((5 : Nat) : Int) ∧
        cellAt s.board_ s.hsr_guess = some CellState.kEmpty ∧
        ∀ j : Int, (j = s.hsr_guess - 1 ∨ (0 ≤ j ∧ j ≤ s.hsr_guess - 2) ∨
            (s.hsr_guess - 1 ≤ j ∧ j ≤ ((5 : Nat) : Int) - 1)) →
          0 ≤ j ∧ j ≤ ((5 : Nat) : Int) - 1) ∧
      (∀ a : Int, a ∈ LegalActions s →
        (s.current_player_ = 0 → 0 ≤ a - 1 ∧ a - 1 ≤ ((5 : Nat) : Int) - 1) ∧
        ∃ s1, DoApplyAction 5 s a = some s1 ∧ s1.board_.length = 5)) :=
  ⟨_, rfl, apply_action_index_safety 5 5 5 5 0 [1, 0, 3] _ rfl⟩

/-! ## C20: index written by `UndoAction` -/

/-- C20, the code at the failing input: on a three-cell board the action 3 is
legal for the Guesser in the initial state and is applied; undoing it writes
`board_[3]`, an index outside `0 .. 2`, so the call fails, while the cell the
action addressed is `board_[2]`. -/
theorem undo_action_index_out_of_range :
    (3 : Int) ∈ LegalActions (initialState 3 5 3 5 0) ∧
    (play 3 (initialState 3 5 3 5 0) [3]).isSome = true ∧
    (play 3 (initialState 3 5 3 5 0) [3]).bind (fun s => UndoAction s 0 3) = none ∧
    boardSet (initialState 3 5 3 5 0).board_ 3 CellState.kEmpty = none ∧
    (boardSet (initialState 3 5 3 5 0).board_ (3 - 1) CellState.kEmpty).isSome = true := by
  decide

end HSR
